import Mathlib

/-!
Shallow embedding of the `tval` validation pipeline (Python), covering the
identifier guard, dependency resolver (`builder.py`), check engine
(`checker.py`), relation engine (`relation.py`), error classifier
(`loader.py`) and the cascade controller glue in `main.py`.

Conventions of the embedding:
* Python strings are Lean `String`; Python `in` / `str.replace` / `str.join`
  are implemented below on `List Char` with Python semantics (leftmost,
  non-overlapping replacement).
* Python exceptions are modelled with `Except String`; a raised `ValueError`
  becomes `.error msg`.
* The external DuckDB connection is an oracle: a function from the SQL text
  and optional bound parameters to an outcome (a fetched row or an exception).
* The external `re` regex engine is an oracle (one matcher per fixed pattern).
* Python `float` values (column `min` / `max`) are modelled as `Int`; the
  code only tests their presence and renders / forwards them, so the carrier
  type is irrelevant to the properties proved here.
* Names follow the source; Python's leading underscore on private helpers is
  kept where Lean accepts it.
-/

/-! ## Python string primitives -/

/-- Python `needle in hay` on character lists. -/
def strContainsB (hay needle : List Char) : Bool :=
  match hay with
  | [] => needle.isEmpty
  | _ :: rest => needle.isPrefixOf hay || strContainsB rest needle

/-- Python `hay.replace(needle, repl)` on character lists: leftmost,
non-overlapping replacement of every occurrence (used only with non-empty
needles).  The fuel argument makes the recursion structural; it is
instantiated with the length of the haystack, which always suffices
because each step consumes at least one character. -/
def replaceFuel (needle repl : List Char) : Nat → List Char → List Char
  | _, [] => []
  | 0, l => l
  | fuel + 1, c :: rest =>
    if needle.isPrefixOf (c :: rest) then
      repl ++ replaceFuel needle repl fuel (rest.drop (needle.length - 1))
    else
      c :: replaceFuel needle repl fuel rest

/-- Python `needle in hay`. -/
def pyContains (hay needle : String) : Bool :=
  strContainsB hay.data needle.data

/-- Python `hay.replace(needle, repl)`. -/
def pyReplace (hay needle repl : String) : String :=
  ⟨replaceFuel needle.data repl.data hay.data.length hay.data⟩

/-- Python `sep.join(parts)`. -/
def pyJoin (sep : String) : List String → String
  | [] => ""
  | [x] => x
  | x :: y :: rest => x ++ sep ++ pyJoin sep (y :: rest)

/-- Python `repr` of an identifier-like string (no quotes or escapes inside),
as interpolated by `f"...{name!r}"`. -/
def pyRepr (s : String) : String := "'" ++ s ++ "'"

/-! ## Data model (`parser.py`, `status.py`, `loader.py`) -/

/-- `status.CheckStatus`. -/
inductive CheckStatus where
  | OK
  | NG
  | SKIPPED
  | ERROR
deriving DecidableEq

/-- A bound query parameter (`list[Any]` in the source: the check builders
only ever bind numbers and lists of strings, and the values are forwarded
verbatim to the connection). -/
inductive Param where
  | num (n : Int)
  | strList (l : List String)
deriving DecidableEq

/-- `loader.LoadError`. -/
structure LoadError where
  file_path : String
  error_type : String
  column : Option String
  row : Option Nat
  raw_message : String
deriving DecidableEq

/-- `parser.CheckDef` (defaults: `expect_zero=True`, `params=[]`). -/
structure CheckDef where
  description : String
  query : String
  expect_zero : Bool := true
  params : List Param := []
deriving DecidableEq

/-- `parser.RowConditionDef`. -/
structure RowConditionDef where
  description : String
  condition : String
deriving DecidableEq

/-- `parser.ColumnDef` (validated fields only; `min`/`max` are Python floats
modelled as `Int`, see the header note). -/
structure ColumnDef where
  name : String
  logical_name : String
  type : String
  not_null : Bool
  description : String := ""
  allowed_values : List String := []
  format : Option String := none
  min : Option Int := none
  max : Option Int := none
deriving DecidableEq

/-- `parser.PrimaryKeyDef`. -/
structure PrimaryKeyDef where
  columns : List String
deriving DecidableEq

/-- `parser.UniqueDef`. -/
structure UniqueDef where
  columns : List String
deriving DecidableEq

/-- `parser.FKReference`. -/
structure FKReference where
  table : String
  columns : List String
deriving DecidableEq

/-- `parser.ForeignKeyDef`. -/
structure ForeignKeyDef where
  columns : List String
  references : FKReference
deriving DecidableEq

/-- `parser.TableConstraints`. -/
structure TableConstraints where
  primary_key : List PrimaryKeyDef
  foreign_keys : List ForeignKeyDef
  unique : List UniqueDef
  checks : List CheckDef
  aggregation_checks : List CheckDef
  row_conditions : List RowConditionDef := []
deriving DecidableEq

/-- `parser.ExportDef`. -/
structure ExportDef where
  partition_by : List String := []
deriving DecidableEq

/-- `parser.TableMeta`. -/
structure TableMeta where
  name : String
  description : String
  source_dir : String
deriving DecidableEq

/-- `parser.TableDef`. The parser's cross-field validation constrains
columns and constraint references but places no constraint at all on the
characters of `table.name` or column names. -/
structure TableDef where
  table : TableMeta
  columns : List ColumnDef
  table_constraints : TableConstraints
  exportDef : ExportDef := {}   -- source field `export` (a Lean keyword)
deriving DecidableEq

/-! ## Identifier guard (`builder.py`) -/

/-- One character of the class `[A-Za-z0-9_]` (ASCII, as in the source
regex). -/
def identTailChar (c : Char) : Bool :=
  c.isAlpha || c.isDigit || c == '_'

/-- `re.fullmatch(r"[A-Za-z_][A-Za-z0-9_]*", name)` as a decidable check. -/
def matchesIdent (s : String) : Bool :=
  match s.data with
  | [] => false
  | c :: rest => (c.isAlpha || c == '_') && rest.all identTailChar

/-- `builder.validate_identifier`: returns the name unchanged, or raises
`ValueError(f"Invalid identifier: {name!r}")`. -/
def validate_identifier (name : String) : Except String String :=
  if matchesIdent name then .ok name
  else .error ("Invalid identifier: " ++ pyRepr name)

/-- `builder.quote_identifier`. -/
def quote_identifier (name : String) : Except String String := do
  let v ← validate_identifier name
  pure ("\"" ++ v ++ "\"")

/-! ## Dependency resolver (`builder.build_load_order`)

`graphlib.TopologicalSorter` (Python stdlib) is modelled as Kahn's
algorithm with layered extraction: repeatedly emit every node whose
dependencies have all been emitted; stall (with the set of remaining nodes)
when no node is ready, which happens exactly on a cyclic graph.  CPython
reports a concrete cycle path in `CycleError.args[1]`; the model reports the
stalled node set, of which we prove at least one member lies on a cycle.
Node iteration order is immaterial to every property proved here. -/

/-- All `(dependent table, referenced table)` pairs contributed by foreign
keys, in source iteration order. -/
def fkPairs (tds : List TableDef) : List (String × String) :=
  tds.flatMap (fun td =>
    td.table_constraints.foreign_keys.map (fun fk => (td.table.name, fk.references.table)))

/-- The declared table names, in order. -/
def tableNames (tds : List TableDef) : List String :=
  tds.map (·.table.name)

/-- The dependency edge of the FK graph: `FkEdge tds a b` iff table `a`
declares a foreign key referencing table `b`. -/
def FkEdge (tds : List TableDef) (a b : String) : Bool :=
  decide ((a, b) ∈ fkPairs tds)

/-- The first foreign key whose referenced table is undefined, if any
(the source raises on the first such key while building the graph). -/
def findMissing (tds : List TableDef) : Option (String × String) :=
  (fkPairs tds).find? (fun p => !(decide (p.2 ∈ tableNames tds)))

/-- The node set of the graph: declared table names, deduplicated (Python
dict keys; key order is irrelevant to the claims). -/
def graphNodes (tds : List TableDef) : List String :=
  (tableNames tds).dedup

/-- `name_to_def[n]`: Python dict insertion gives last-wins lookup. -/
def nameToDef (tds : List TableDef) (n : String) : Option TableDef :=
  (tds.filter (fun td => td.table.name == n)).getLast?

/-- The nodes of `rem` with no outstanding dependency in `rem`. -/
def kahnReady (E : String → String → Bool) (rem : List String) : List String :=
  rem.filter (fun n => !(rem.any (fun m => E n m)))

/-- One layer of Kahn's algorithm plus recursion, with fuel (the fuel is
instantiated with the node count, which always suffices). On a stall the
remaining node set is returned as the error payload. -/
def kahnFuel (E : String → String → Bool) : Nat → List String → Except (List String) (List String)
  | 0, rem => if rem.isEmpty then .ok [] else .error rem
  | fuel + 1, rem =>
    if rem.isEmpty then .ok []
    else if (kahnReady E rem).isEmpty then .error rem
    else
      match kahnFuel E fuel (rem.filter (fun n => !(decide (n ∈ kahnReady E rem)))) with
      | .error s => .error s
      | .ok out => .ok (kahnReady E rem ++ out)

/-- `TopologicalSorter(graph).static_order()` (model). -/
def kahn (E : String → String → Bool) (nodes : List String) : Except (List String) (List String) :=
  kahnFuel E nodes.length nodes

/-- The two failure modes of `build_load_order` (`ValueError`s in the
source, carrying the names interpolated into the message). -/
inductive BuildErr where
  | missingRef (dependent target : String)
  | cycleDetected (nodes : List String)
deriving DecidableEq

/-- `builder.build_load_order`: build the FK dependency graph (failing on a
reference to an undefined table), topologically sort it (failing on a
cycle), and map the ordered names back to their definitions. -/
def build_load_order (tds : List TableDef) : Except BuildErr (List TableDef) :=
  match findMissing tds with
  | some p => .error (.missingRef p.1 p.2)
  | none =>
    match kahn (FkEdge tds) (graphNodes tds) with
    | .error stuck => .error (.cycleDetected stuck)
    | .ok order => .ok (order.filterMap (nameToDef tds))

/-- `∃ x, x →⁺ x` in the FK graph. -/
def HasFkCycle (tds : List TableDef) : Prop :=
  ∃ x, Relation.TransGen (fun a b => FkEdge tds a b = true) x x

/-- Some foreign key references a table that is not defined. -/
def MissingFkTarget (tds : List TableDef) : Prop :=
  ∃ p ∈ fkPairs tds, p.2 ∉ tableNames tds

/-! ## Check engine (`checker.py`) -/

/-- Outcome of `conn.execute(...).fetchone()` on the external engine:
either a fetched row carrying the scalar count (`none` models a `None`
row, which the source coerces to count 0), or a raised exception with its
diagnostic text. -/
inductive ExecOutcome where
  | rows (fetched : Option Int)
  | raised (msg : String)
deriving DecidableEq

/-- The external DuckDB connection, as an oracle from the SQL text and the
optional bound parameter list to an outcome. -/
def Conn : Type := String → Option (List Param) → ExecOutcome

/-- `checker.CheckResult`. -/
structure CheckResult where
  description : String
  query : String
  status : CheckStatus
  result_count : Option Int
  message : String
deriving DecidableEq

/-- Exception-propagating traversal: models a Python list comprehension or
consumed generator chain, where the first raised exception aborts the
whole construction. -/
def exMapM (f : α → Except String β) : List α → Except String (List β)
  | [] => .ok []
  | x :: xs => do
    let y ← f x
    let ys ← exMapM f xs
    pure (y :: ys)

/-- `checker.make_skipped_result` (the logging call has no bearing on the
returned value and is dropped). -/
def make_skipped_result (check : CheckDef) (table_name message : String) :
    Except String CheckResult := do
  let query ←
    if pyContains check.query "{table}" then do
      let q ← quote_identifier table_name
      pure (pyReplace check.query "{table}" q)
    else
      pure check.query
  pure { description := check.description
         query := query
         status := .SKIPPED
         result_count := none
         message := message }

/-- `checker._build_allowed_values_check`. -/
def build_allowed_values_check (col : ColumnDef) :
    Except String CheckDef := do
  let qcol ← quote_identifier col.name
  pure { description := col.logical_name ++ "(" ++ col.name ++ ") allowed values check"
         query := "SELECT COUNT(*) FROM {table} WHERE " ++ qcol ++
           " NOT IN (SELECT UNNEST(?::VARCHAR[])) AND " ++ qcol ++ " IS NOT NULL"
         expect_zero := true
         params := [Param.strList col.allowed_values] }

/-- `checker._build_range_check`. -/
def build_range_check (col : ColumnDef) : Except String CheckDef := do
  let qcol ← quote_identifier col.name
  let conditions : List String :=
    (match col.min with | some _ => [qcol ++ " < ?"] | none => []) ++
    (match col.max with | some _ => [qcol ++ " > ?"] | none => [])
  let params : List Param :=
    (match col.min with | some v => [Param.num v] | none => []) ++
    (match col.max with | some v => [Param.num v] | none => [])
  let where_clause := pyJoin " OR " conditions
  let range_parts : List String :=
    (match col.min with | some v => ["min=" ++ toString v] | none => []) ++
    (match col.max with | some v => ["max=" ++ toString v] | none => [])
  pure { description := col.logical_name ++ "(" ++ col.name ++ ") range check (" ++
           pyJoin ", " range_parts ++ ")"
         query := "SELECT COUNT(*) FROM {table} WHERE (" ++ where_clause ++ ") AND " ++
           qcol ++ " IS NOT NULL"
         expect_zero := true
         params := params }

/-- `checker._build_row_condition_check`. -/
def build_row_condition_check (condition : RowConditionDef) : CheckDef :=
  { description := condition.description
    query := "SELECT COUNT(*) FROM {table} WHERE NOT (" ++ condition.condition ++ ")"
    expect_zero := true
    params := [] }

/-- `check.params or None`: an empty parameter list is passed as `None`. -/
def paramsOrNone (check : CheckDef) : Option (List Param) :=
  if check.params.isEmpty then none else some check.params

/-- `checker._execute_check`.  The `{table}` substitution (and with it the
identifier guard, which can raise) happens before the `try` block; only the
query execution itself is caught and converted to an ERROR result. -/
def execute_check (conn : Conn) (check : CheckDef) (table_name : String) :
    Except String CheckResult := do
  let qt ← quote_identifier table_name
  let query := pyReplace check.query "{table}" qt
  match conn query (paramsOrNone check) with
  | .rows fetched =>
    let count : Int := fetched.getD 0
    let status : CheckStatus :=
      if check.expect_zero then (if count = 0 then .OK else .NG)
      else (if count > 0 then .OK else .NG)
    pure { description := check.description
           query := query
           status := status
           result_count := some count
           message := if status = .OK then "" else "Result count: " ++ toString count }
  | .raised e =>
    pure { description := check.description
           query := query
           status := .ERROR
           result_count := none
           message := e }

/-- The columns carrying an `allowed_values` rule, in declaration order. -/
def allowedValueCols (tdef : TableDef) : List ColumnDef :=
  tdef.columns.filter (fun col => !col.allowed_values.isEmpty)

/-- The columns carrying a `min`/`max` rule, in declaration order. -/
def rangeCols (tdef : TableDef) : List ColumnDef :=
  tdef.columns.filter (fun col => col.min.isSome || col.max.isSome)

/-- `checker.run_checks`: if load errors exist every check (built-in,
user-defined and aggregation) is turned into a SKIPPED result without
touching the connection; otherwise each check is built and executed in the
fixed family order (allowed values, range, row conditions, user checks;
aggregation checks in their own list). -/
def run_checks (conn : Conn) (tdef : TableDef) (load_errors : List LoadError) :
    Except String (List CheckResult × List CheckResult) :=
  let table_name := tdef.table.name
  if load_errors.isEmpty then do
    let r1 ← exMapM (fun col => do
      let c ← build_allowed_values_check col
      execute_check conn c table_name) (allowedValueCols tdef)
    let r2 ← exMapM (fun col => do
      let c ← build_range_check col
      execute_check conn c table_name) (rangeCols tdef)
    let r3 ← exMapM (fun rc => execute_check conn (build_row_condition_check rc) table_name)
      tdef.table_constraints.row_conditions
    let r4 ← exMapM (fun c => execute_check conn c table_name)
      tdef.table_constraints.checks
    let agg ← exMapM (fun c => execute_check conn c table_name)
      tdef.table_constraints.aggregation_checks
    pure (r1 ++ r2 ++ r3 ++ r4, agg)
  else do
    let skip_msg := "Skipped due to load error"
    let r1 ← exMapM (fun col => do
      let c ← build_allowed_values_check col
      make_skipped_result c table_name skip_msg) (allowedValueCols tdef)
    let r2 ← exMapM (fun col => do
      let c ← build_range_check col
      make_skipped_result c table_name skip_msg) (rangeCols tdef)
    let r3 ← exMapM (fun rc => make_skipped_result (build_row_condition_check rc) table_name skip_msg)
      tdef.table_constraints.row_conditions
    let r4 ← exMapM (fun c => make_skipped_result c table_name skip_msg)
      tdef.table_constraints.checks
    let agg ← exMapM (fun c => make_skipped_result c table_name skip_msg)
      tdef.table_constraints.aggregation_checks
    pure (r1 ++ r2 ++ r3 ++ r4, agg)

/-! ## Relation engine (`relation.py`) and cascade glue (`main.py`) -/

/-- `relation.RelationEndpoint`. -/
structure RelationEndpoint where
  table : String
  columns : List String
deriving DecidableEq

/-- The `Literal["1:1", "1:N", "N:1", "N:N"]` cardinality. -/
inductive Cardinality where
  | one_one
  | one_n
  | n_one
  | n_n
deriving DecidableEq

/-- `relation.RelationDef`. -/
structure RelationDef where
  name : String
  cardinality : Cardinality
  from_ : RelationEndpoint
  to_ : RelationEndpoint   -- source field `to` (a Lean keyword), cf. `from_` in the source

deriving DecidableEq

/-- `relation._build_uniqueness_sql` (arguments are already quoted). -/
def build_uniqueness_sql (table : String) (cols : List String) : String :=
  let col_list := pyJoin ", " cols
  "SELECT COUNT(*) FROM (SELECT " ++ col_list ++ " FROM " ++ table ++
    " GROUP BY " ++ col_list ++ " HAVING COUNT(*) > 1)"

/-- `relation._build_referential_sql` (arguments are already quoted).
`zip(source_cols, target_cols, strict=True)` raises `ValueError` when the
two column lists differ in arity; that exception is modelled here. -/
def build_referential_sql (source_table : String) (source_cols : List String)
    (target_table : String) (target_cols : List String) : Except String String :=
  if source_cols.length = target_cols.length then
    let join_cond := pyJoin " AND "
      (List.zipWith (fun sc tc => "s." ++ sc ++ " = t." ++ tc) source_cols target_cols)
    let null_filter := pyJoin " AND " (source_cols.map (fun sc => "s." ++ sc ++ " IS NOT NULL"))
    let target_null := pyJoin " AND " (target_cols.map (fun tc => "t." ++ tc ++ " IS NULL"))
    .ok ("SELECT COUNT(*) FROM " ++ source_table ++ " s LEFT JOIN " ++ target_table ++
      " t ON " ++ join_cond ++ " WHERE " ++ null_filter ++ " AND " ++ target_null)
  else
    .error "zip() argument lengths differ (strict=True)"

/-- `relation._build_relation_checks`: quote both endpoints, then emit the
cardinality-specific `(description, sql)` pairs. -/
def build_relation_checks (rel : RelationDef) :
    Except String (List (String × String)) := do
  let from_table ← quote_identifier rel.from_.table
  let to_table ← quote_identifier rel.to_.table
  let from_cols ← exMapM quote_identifier rel.from_.columns
  let to_cols ← exMapM quote_identifier rel.to_.columns
  let from_col_names := pyJoin ", " rel.from_.columns
  let to_col_names := pyJoin ", " rel.to_.columns
  match rel.cardinality with
  | .one_one => do
    let r1 ← build_referential_sql from_table from_cols to_table to_cols
    let r2 ← build_referential_sql to_table to_cols from_table from_cols
    pure [("[" ++ rel.name ++ "] " ++ rel.from_.table ++ "(" ++ from_col_names ++ ") uniqueness",
            build_uniqueness_sql from_table from_cols),
          ("[" ++ rel.name ++ "] " ++ rel.to_.table ++ "(" ++ to_col_names ++ ") uniqueness",
            build_uniqueness_sql to_table to_cols),
          ("[" ++ rel.name ++ "] " ++ rel.from_.table ++ " -> " ++ rel.to_.table ++
            " referential integrity", r1),
          ("[" ++ rel.name ++ "] " ++ rel.to_.table ++ " -> " ++ rel.from_.table ++
            " referential integrity", r2)]
  | .one_n => do
    let r ← build_referential_sql to_table to_cols from_table from_cols
    pure [("[" ++ rel.name ++ "] " ++ rel.from_.table ++ "(" ++ from_col_names ++
            ") uniqueness (1-side)", build_uniqueness_sql from_table from_cols),
          ("[" ++ rel.name ++ "] " ++ rel.to_.table ++ " -> " ++ rel.from_.table ++
            " referential integrity", r)]
  | .n_one => do
    let r ← build_referential_sql from_table from_cols to_table to_cols
    pure [("[" ++ rel.name ++ "] " ++ rel.to_.table ++ "(" ++ to_col_names ++
            ") uniqueness (1-side)", build_uniqueness_sql to_table to_cols),
          ("[" ++ rel.name ++ "] " ++ rel.from_.table ++ " -> " ++ rel.to_.table ++
            " referential integrity", r)]
  | .n_n => do
    let r1 ← build_referential_sql from_table from_cols to_table to_cols
    let r2 ← build_referential_sql to_table to_cols from_table from_cols
    pure [("[" ++ rel.name ++ "] " ++ rel.from_.table ++ " -> " ++ rel.to_.table ++
            " referential integrity", r1),
          ("[" ++ rel.name ++ "] " ++ rel.to_.table ++ " -> " ++ rel.from_.table ++
            " referential integrity", r2)]

/-- The skip condition's cause list, in source order: endpoint tables with
load errors first, then endpoints in the failed-check set. -/
def skippedTables (rel : RelationDef) (from_errors to_errors : List LoadError)
    (from_check_failed to_check_failed : Bool) : List String :=
  (if !from_errors.isEmpty then [rel.from_.table] else []) ++
  (if !to_errors.isEmpty then [rel.to_.table] else []) ++
  (if from_check_failed then [rel.from_.table ++ " (check failed)"] else []) ++
  (if to_check_failed then [rel.to_.table ++ " (check failed)"] else [])

/-- Execution and classification of one relation check query
(`relation.run_relation_checks` loop body, non-skip branch). -/
def execRelationPair (conn : Conn) (pair : String × String) : CheckResult :=
  match conn pair.2 none with
  | .rows fetched =>
    let count : Int := fetched.getD 0
    let status : CheckStatus := if count = 0 then .OK else .NG
    { description := pair.1
      query := pair.2
      status := status
      result_count := some count
      message := if status = .OK then "" else "Result count: " ++ toString count }
  | .raised e =>
    { description := pair.1
      query := pair.2
      status := .ERROR
      result_count := none
      message := e }

/-- The per-relation body of `relation.run_relation_checks`: the check
pairs are built first (so identifier/arity exceptions escape even when the
skip condition holds); then either every pair is turned into a SKIPPED
result naming the causes, or every pair is executed and classified.
`all_load_errors` is the Python dict as a total function
(`dict.get(name, [])`), and `check_failed` the membership test of the
failed-table set. -/
def runRelationOne (conn : Conn) (all_load_errors : String → List LoadError)
    (check_failed : String → Bool) (rel : RelationDef) :
    Except String (List CheckResult) := do
  let from_errors := all_load_errors rel.from_.table
  let to_errors := all_load_errors rel.to_.table
  let from_check_failed := check_failed rel.from_.table
  let to_check_failed := check_failed rel.to_.table
  let check_pairs ← build_relation_checks rel
  if !from_errors.isEmpty || !to_errors.isEmpty || from_check_failed || to_check_failed then
    let skip_msg := "Skipped due to errors in: " ++
      pyJoin ", " (skippedTables rel from_errors to_errors from_check_failed to_check_failed)
    exMapM (fun pair =>
      make_skipped_result { description := pair.1, query := pair.2 } rel.name skip_msg)
      check_pairs
  else
    pure (check_pairs.map (execRelationPair conn))

/-- `relation.run_relation_checks`: the flat result list over all
relations (a `check_failed_tables=None` call behaves as the constantly
false membership test, matching `check_failed_tables or set()`). -/
def run_relation_checks (conn : Conn) (all_load_errors : String → List LoadError)
    (check_failed : String → Bool) : List RelationDef → Except String (List CheckResult)
  | [] => .ok []
  | rel :: rest => do
    let rs ← runRelationOne conn all_load_errors check_failed rel
    let more ← run_relation_checks conn all_load_errors check_failed rest
    pure (rs ++ more)

/-- `reporter.TableReport`, restricted to the fields the cascade controller
in `main.run` reads (profiling and export results are irrelevant to the
claims settled here and are omitted). -/
structure TableReport where
  table_def : TableDef
  load_errors : List LoadError
  check_results : List CheckResult
  agg_check_results : List CheckResult
deriving DecidableEq

/-- Whether a report contains at least one NG or ERROR check result
(`cr.status in (CheckStatus.NG, CheckStatus.ERROR)` over
`chain(r.check_results, r.agg_check_results)`). -/
def reportHasCheckFailure (r : TableReport) : Bool :=
  (r.check_results ++ r.agg_check_results).any
    (fun cr => cr.status == .NG || cr.status == .ERROR)

/-- `main.run`'s `check_failed_tables` set, as the list of names of reports
with at least one NG or ERROR result (membership is what the source uses
it for). -/
def check_failed_tables (reports : List TableReport) : List String :=
  (reports.filter reportHasCheckFailure).map (·.table_def.table.name)

/-! ## Error classifier (`loader.parse_duckdb_error`)

The Python `re` module is external to the program; each of the five fixed
patterns is modelled as an oracle returning its captures on a match.  The
`TYPE_MISMATCH` row capture is `\d+`, so the source's `int(...)` cannot
fail and the oracle carries it as a `Nat` directly. -/

/-- One `re.search` oracle per fixed pattern rule of the classifier. -/
structure ReOracle where
  /-- `Could not convert .+ to (\w+) in column "(\w+)".+Row: (\d+)` with
  DOTALL: captures (type, column, row). -/
  type_mismatch : String → Option (String × String × Nat)
  /-- `NOT NULL constraint failed: \w+\.(\w+)`: captures the column. -/
  not_null : String → Option String
  /-- `has (\d+) columns but (\d+) values`: captures the two counts. -/
  column_mismatch : String → Option (Nat × Nat)
  /-- `Violates foreign key constraint because key .+ does not exist`. -/
  fk_violation : String → Bool
  /-- `Duplicate key .+ violates (primary key|unique) constraint`:
  captures the constraint word. -/
  unique_violation : String → Option String

/-- `loader.parse_duckdb_error`: the ordered pattern rules are tried in
sequence and the first match decides the error kind; an unmatched message
degrades to `UNKNOWN`.  Every branch preserves the raw message, and the
function is total (the source never raises here). -/
def parse_duckdb_error (re : ReOracle) (file_path message : String) : LoadError :=
  match re.type_mismatch message with
  | some (_, col, row) =>
    { file_path := file_path, error_type := "TYPE_MISMATCH"
      column := some col, row := some row, raw_message := message }
  | none =>
    match re.not_null message with
    | some col =>
      { file_path := file_path, error_type := "NOT_NULL"
        column := some col, row := none, raw_message := message }
    | none =>
      match re.column_mismatch message with
      | some _ =>
        { file_path := file_path, error_type := "COLUMN_MISMATCH"
          column := none, row := none, raw_message := message }
      | none =>
        if re.fk_violation message then
          { file_path := file_path, error_type := "FK_VIOLATION"
            column := none, row := none, raw_message := message }
        else
          match re.unique_violation message with
          | some _ =>
            { file_path := file_path, error_type := "UNIQUE_VIOLATION"
              column := none, row := none, raw_message := message }
          | none =>
            { file_path := file_path, error_type := "UNKNOWN"
              column := none, row := none, raw_message := message }

/-- Modelled from the spec: `loader._check_extra_columns` is imported and
exercised by the repository's tests (`tests/test_loader.py`) but the
function itself is absent from the provided sources.  Per spec §4.3 the
loading stage directly produces a `LoadError` of kind `EXTRA_COLUMNS`
when the data file contains columns absent from the table's schema,
rather than classifying a backend error message.  The file's header
columns — read from the file through the connection in the real signature
`_check_extra_columns(conn, tdef, file_path, ext)` — are the external
input `file_columns` here; the raw message names the offending columns as
the tests require. -/
def check_extra_columns (tdef : TableDef) (file_path : String)
    (file_columns : List String) : Option LoadError :=
  let schema_cols := tdef.columns.map (·.name)
  let extra := file_columns.filter (fun c => !(decide (c ∈ schema_cols)))
  if extra.isEmpty then none
  else some
    { file_path := file_path, error_type := "EXTRA_COLUMNS"
      column := none, row := none
      raw_message := "Columns not defined in schema: " ++ pyJoin ", " extra }

/-! ## Basic lemmas -/

theorem exMapM_eq_map {α β : Type} {f : α → Except String β} {g : α → β} :
    ∀ {l : List α}, (∀ x ∈ l, f x = .ok (g x)) → exMapM f l = .ok (l.map g) := by
  intro l
  induction l with
  | nil => intro _; rfl
  | cons x xs ih =>
    intro h
    have hx := h x (List.mem_cons_self x xs)
    have hxs := ih (fun y hy => h y (List.mem_cons_of_mem x hy))
    simp only [exMapM, hx, hxs, List.map_cons]
    rfl

theorem exMapM_ok_forall {α β : Type} {f : α → Except String β} {P : β → Prop}
    {l : List α} (hall : ∀ x ∈ l, ∃ y, f x = .ok y ∧ P y) :
    ∃ ys, exMapM f l = .ok ys ∧ ∀ y ∈ ys, P y := by
  induction l with
  | nil => exact ⟨[], rfl, by simp⟩
  | cons x xs ih =>
    obtain ⟨y, hy, hPy⟩ := hall x (List.mem_cons_self x xs)
    obtain ⟨ys, hys, hPys⟩ := ih (fun z hz => hall z (List.mem_cons_of_mem x hz))
    refine ⟨y :: ys, ?_, ?_⟩
    · simp only [exMapM, hy, hys]; rfl
    · intro z hz
      rcases List.mem_cons.mp hz with h | h
      · exact h ▸ hPy
      · exact hPys z h

theorem quote_identifier_ok {n : String} (h : matchesIdent n = true) :
    quote_identifier n = .ok ("\"" ++ n ++ "\"") := by
  unfold quote_identifier validate_identifier
  rw [if_pos h]
  rfl

theorem quote_identifier_error {n : String} (h : matchesIdent n = false) :
    quote_identifier n = .error ("Invalid identifier: " ++ pyRepr n) := by
  unfold quote_identifier validate_identifier
  rw [if_neg (by simp [h])]
  rfl

theorem identHeadChar_ne_quote {c : Char} (h : (c.isAlpha || c == '_') = true) :
    c ≠ '"' := by
  intro hc
  subst hc
  simp at h

theorem identTailChar_ne_quote {c : Char} (h : identTailChar c = true) : c ≠ '"' := by
  intro hc
  subst hc
  simp [identTailChar] at h

/-- Accepted identifiers contain no double-quote character. -/
theorem matchesIdent_no_quote {n : String} (h : matchesIdent n = true) :
    '"' ∉ n.data := by
  intro hmem
  unfold matchesIdent at h
  cases hd : n.data with
  | nil => rw [hd] at hmem; simp at hmem
  | cons c rest =>
    rw [hd] at h hmem
    simp only [Bool.and_eq_true] at h
    rcases List.mem_cons.mp hmem with hc | hc
    · exact identHeadChar_ne_quote h.1 hc.symm
    · exact identTailChar_ne_quote (List.all_eq_true.mp h.2 _ hc) rfl

/-! ## C9: identifier guard -/

/-- **C9.** `validate_identifier` succeeds returning the name unchanged
exactly when the name matches `[A-Za-z_][A-Za-z0-9_]*`, and raises
otherwise; `quote_identifier` wraps the validated name in double quotes,
and for every accepted name the quoted output contains exactly the two
wrapping double-quote characters and no other. -/
theorem identifier_guard_spec (name : String) :
    (validate_identifier name = .ok name ↔ matchesIdent name = true)
    ∧ (matchesIdent name = false →
        validate_identifier name = .error ("Invalid identifier: " ++ pyRepr name))
    ∧ (matchesIdent name = true →
        quote_identifier name = .ok ("\"" ++ name ++ "\"")
        ∧ ("\"" ++ name ++ "\"").data.count '"' = 2) := by
  refine ⟨⟨fun h => ?_, fun h => ?_⟩, fun h => ?_, fun h => ?_⟩
  · by_contra hm
    rw [Bool.not_eq_true] at hm
    unfold validate_identifier at h
    rw [if_neg (by simp [hm])] at h
    exact Except.noConfusion h
  · unfold validate_identifier
    rw [if_pos h]
  · unfold validate_identifier
    rw [if_neg (by simp [h])]
  · refine ⟨quote_identifier_ok h, ?_⟩
    have hq : ('"' : Char) ∉ name.data := matchesIdent_no_quote h
    have hdata : ("\"" ++ name ++ "\"").data = '"' :: (name.data ++ ['"']) := by
      simp [String.data_append]
    rw [hdata]
    simp [List.count_cons, List.count_append, List.count_eq_zero.mpr hq]

/-- Witness for C9 at the concrete accepted name `users`. -/
theorem identifier_guard_spec_witness :
    validate_identifier "users" = .ok "users"
    ∧ quote_identifier "users" = .ok "\"users\""
    ∧ ("\"users\"").data.count '"' = 2 := by
  have h := identifier_guard_spec "users"
  have hm : matchesIdent "users" = true := by decide
  exact ⟨h.1.mpr hm, (h.2.2 hm).1, (h.2.2 hm).2⟩

/-! ## C7: error classifier -/

/-- **C7.** The classifier is total — for every file path and raw message
it returns a `LoadError` (with the path and the raw text preserved in every
branch) — and the ordered pattern rules TYPE_MISMATCH, NOT_NULL,
COLUMN_MISMATCH, FK_VIOLATION, UNIQUE_VIOLATION are tried in sequence with
the first match determining the kind; a message matched by no rule yields
kind UNKNOWN with the raw text preserved. -/
theorem parse_duckdb_error_spec (re : ReOracle) (fp msg : String) :
    ((parse_duckdb_error re fp msg).file_path = fp
      ∧ (parse_duckdb_error re fp msg).raw_message = msg)
    ∧ (∀ t c r, re.type_mismatch msg = some (t, c, r) →
        parse_duckdb_error re fp msg = ⟨fp, "TYPE_MISMATCH", some c, some r, msg⟩)
    ∧ (re.type_mismatch msg = none → ∀ c, re.not_null msg = some c →
        parse_duckdb_error re fp msg = ⟨fp, "NOT_NULL", some c, none, msg⟩)
    ∧ (re.type_mismatch msg = none → re.not_null msg = none →
        ∀ p, re.column_mismatch msg = some p →
        parse_duckdb_error re fp msg = ⟨fp, "COLUMN_MISMATCH", none, none, msg⟩)
    ∧ (re.type_mismatch msg = none → re.not_null msg = none →
        re.column_mismatch msg = none → re.fk_violation msg = true →
        parse_duckdb_error re fp msg = ⟨fp, "FK_VIOLATION", none, none, msg⟩)
    ∧ (re.type_mismatch msg = none → re.not_null msg = none →
        re.column_mismatch msg = none → re.fk_violation msg = false →
        ∀ w, re.unique_violation msg = some w →
        parse_duckdb_error re fp msg = ⟨fp, "UNIQUE_VIOLATION", none, none, msg⟩)
    ∧ (re.type_mismatch msg = none → re.not_null msg = none →
        re.column_mismatch msg = none → re.fk_violation msg = false →
        re.unique_violation msg = none →
        parse_duckdb_error re fp msg = ⟨fp, "UNKNOWN", none, none, msg⟩) := by
  refine ⟨?_, ?_, ?_, ?_, ?_, ?_, ?_⟩
  · unfold parse_duckdb_error
    rcases h1 : re.type_mismatch msg with _ | ⟨t, c, r⟩
    all_goals rcases h2 : re.not_null msg with _ | c2
    all_goals rcases h3 : re.column_mismatch msg with _ | p3
    all_goals rcases h4 : re.fk_violation msg with _ | _
    all_goals rcases h5 : re.unique_violation msg with _ | w5
    all_goals simp
  · intro t c r h1
    unfold parse_duckdb_error
    rw [h1]
  · intro h1 c h2
    unfold parse_duckdb_error
    rw [h1, h2]
  · intro h1 h2 p h3
    unfold parse_duckdb_error
    rw [h1, h2, h3]
  · intro h1 h2 h3 h4
    unfold parse_duckdb_error
    rw [h1, h2, h3, h4]
    rfl
  · intro h1 h2 h3 h4 w h5
    unfold parse_duckdb_error
    rw [h1, h2, h3, h4, h5]
    rfl
  · intro h1 h2 h3 h4 h5
    unfold parse_duckdb_error
    rw [h1, h2, h3, h4, h5]
    rfl

/-- A concrete regex-engine oracle: a TYPE_MISMATCH match on one known
DuckDB message, no match on anything else. -/
def reSample : ReOracle :=
  { type_mismatch := fun m =>
      if m = "Could not convert string \"abc\" to INT64 in column \"user_id\", at Row: 3"
      then some ("INT64", "user_id", 3) else none
    not_null := fun _ => none
    column_mismatch := fun _ => none
    fk_violation := fun _ => false
    unique_violation := fun _ => none }

/-- Witness for C7: the sample TYPE_MISMATCH message is classified as such
with column and row extracted, and an unmatched message degrades to
UNKNOWN with the raw text preserved. -/
theorem parse_duckdb_error_spec_witness :
    parse_duckdb_error reSample "u.csv"
        "Could not convert string \"abc\" to INT64 in column \"user_id\", at Row: 3"
      = ⟨"u.csv", "TYPE_MISMATCH", some "user_id", some 3,
          "Could not convert string \"abc\" to INT64 in column \"user_id\", at Row: 3"⟩
    ∧ parse_duckdb_error reSample "u.csv" "mystery failure"
      = ⟨"u.csv", "UNKNOWN", none, none, "mystery failure"⟩ := by
  constructor
  · exact (parse_duckdb_error_spec reSample "u.csv" _).2.1 "INT64" "user_id" 3 (by decide)
  · exact (parse_duckdb_error_spec reSample "u.csv" "mystery failure").2.2.2.2.2.2
      (by decide) rfl rfl rfl rfl

/-! ## C8: synthetic EXTRA_COLUMNS kind -/

/-- **C8.** When a data file contains columns absent from the table's
schema, the loading stage's `_check_extra_columns` directly produces a
`LoadError` of kind `EXTRA_COLUMNS` (and `none` when every file column is
in the schema); the text classifier `parse_duckdb_error` can never produce
that kind, so it is synthetic rather than classified. -/
theorem extra_columns_spec (tdef : TableDef) (fp : String) (file_columns : List String) :
    ((∃ c ∈ file_columns, c ∉ tdef.columns.map (·.name)) →
      ∃ e, check_extra_columns tdef fp file_columns = some e
        ∧ e.error_type = "EXTRA_COLUMNS" ∧ e.file_path = fp)
    ∧ ((∀ c ∈ file_columns, c ∈ tdef.columns.map (·.name)) →
      check_extra_columns tdef fp file_columns = none)
    ∧ (∀ re fp2 msg, (parse_duckdb_error re fp2 msg).error_type ≠ "EXTRA_COLUMNS") := by
  refine ⟨?_, ?_, ?_⟩
  · intro ⟨c, hc, hnot⟩
    have hmem : c ∈ file_columns.filter (fun c => !(decide (c ∈ tdef.columns.map (·.name)))) := by
      rw [List.mem_filter]
      exact ⟨hc, by simp [hnot]⟩
    have hne : (file_columns.filter
        (fun c => !(decide (c ∈ tdef.columns.map (·.name))))).isEmpty = false := by
      rcases hf : file_columns.filter (fun c => !(decide (c ∈ tdef.columns.map (·.name)))) with
        _ | ⟨x, xs⟩
      · rw [hf] at hmem; simp at hmem
      · rw [hf]; rfl
    refine ⟨⟨fp, "EXTRA_COLUMNS", none, none, "Columns not defined in schema: " ++
      pyJoin ", " (file_columns.filter (fun c => !(decide (c ∈ tdef.columns.map (·.name)))))⟩,
      ?_, rfl, rfl⟩
    simp only [check_extra_columns]
    rw [hne]
    simp
  · intro hall
    have hnil : file_columns.filter
        (fun c => !(decide (c ∈ tdef.columns.map (·.name)))) = [] := by
      rw [List.filter_eq_nil_iff]
      intro a ha
      simp [hall a ha]
    simp only [check_extra_columns]
    rw [hnil]
    rfl
  · intro re fp2 msg
    unfold parse_duckdb_error
    rcases h1 : re.type_mismatch msg with _ | ⟨t, c, r⟩
    all_goals rcases h2 : re.not_null msg with _ | c2
    all_goals rcases h3 : re.column_mismatch msg with _ | p3
    all_goals rcases h4 : re.fk_violation msg with _ | _
    all_goals rcases h5 : re.unique_violation msg with _ | w5
    all_goals simp

/-- Witness for C8: a file with column `bonus` against a schema with
columns `id`, `name`. -/
theorem extra_columns_spec_witness :
    (∃ e, check_extra_columns
        ⟨⟨"t", "", "data/t"⟩,
         [⟨"id", "ID", "INTEGER", true, "", [], none, none, none⟩,
          ⟨"name", "Name", "VARCHAR", false, "", [], none, none, none⟩],
         ⟨[], [], [], [], [], []⟩, {}⟩
        "data/t/test.csv" ["id", "name", "bonus"] = some e
      ∧ e.error_type = "EXTRA_COLUMNS" ∧ e.file_path = "data/t/test.csv") := by
  exact (extra_columns_spec _ _ _).1 ⟨"bonus", by decide, by decide⟩

/-! ## C5: cardinality-to-check mapping -/

/-- The quoted form of an identifier accepted by the guard. -/
def quoted (n : String) : String := "\"" ++ n ++ "\""

theorem quote_identifier_ok_quoted {n : String} (h : matchesIdent n = true) :
    quote_identifier n = .ok (quoted n) := quote_identifier_ok h

theorem except_bind_ok {α β ε : Type} (a : α) (f : α → Except ε β) :
    (Except.ok a : Except ε α) >>= f = f a := rfl

theorem build_referential_sql_ok {u v : String} {scols tcols : List String}
    (h : scols.length = tcols.length) :
    build_referential_sql u scols v tcols = .ok
      ("SELECT COUNT(*) FROM " ++ u ++ " s LEFT JOIN " ++ v ++ " t ON " ++
        pyJoin " AND " (List.zipWith (fun sc tc => "s." ++ sc ++ " = t." ++ tc) scols tcols) ++
        " WHERE " ++ pyJoin " AND " (scols.map (fun sc => "s." ++ sc ++ " IS NOT NULL")) ++
        " AND " ++ pyJoin " AND " (tcols.map (fun tc => "t." ++ tc ++ " IS NULL"))) := by
  unfold build_referential_sql
  rw [if_pos h]

/-- All identifiers appearing in a relation's endpoints are accepted by the
identifier guard. -/
def relationNamesValid (rel : RelationDef) : Prop :=
  matchesIdent rel.from_.table = true ∧ matchesIdent rel.to_.table = true ∧
  (∀ c ∈ rel.from_.columns, matchesIdent c = true) ∧
  (∀ c ∈ rel.to_.columns, matchesIdent c = true)

/-- **C5 (amended).** For every relation definition whose endpoint names
are valid identifiers and whose two column lists have equal arity, the
generated checks are exactly, and in this order: for 1:1 uniqueness(from),
uniqueness(to), referential(from→to), referential(to→from) — 4 checks; for
1:N uniqueness(from) and referential(to→from) — 2 checks; for N:1
uniqueness(to) and referential(from→to) — 2 checks; for N:N
referential(from→to) and referential(to→from) — 2 checks. -/
theorem relation_check_generation_spec (rel : RelationDef)
    (hv : relationNamesValid rel)
    (har : rel.from_.columns.length = rel.to_.columns.length) :
    ∃ refFT refTF,
      build_referential_sql (quoted rel.from_.table) (rel.from_.columns.map quoted)
        (quoted rel.to_.table) (rel.to_.columns.map quoted) = .ok refFT ∧
      build_referential_sql (quoted rel.to_.table) (rel.to_.columns.map quoted)
        (quoted rel.from_.table) (rel.from_.columns.map quoted) = .ok refTF ∧
      build_relation_checks rel = .ok (
        match rel.cardinality with
        | .one_one =>
          [("[" ++ rel.name ++ "] " ++ rel.from_.table ++ "(" ++
              pyJoin ", " rel.from_.columns ++ ") uniqueness",
            build_uniqueness_sql (quoted rel.from_.table) (rel.from_.columns.map quoted)),
           ("[" ++ rel.name ++ "] " ++ rel.to_.table ++ "(" ++
              pyJoin ", " rel.to_.columns ++ ") uniqueness",
            build_uniqueness_sql (quoted rel.to_.table) (rel.to_.columns.map quoted)),
           ("[" ++ rel.name ++ "] " ++ rel.from_.table ++ " -> " ++ rel.to_.table ++
              " referential integrity", refFT),
           ("[" ++ rel.name ++ "] " ++ rel.to_.table ++ " -> " ++ rel.from_.table ++
              " referential integrity", refTF)]
        | .one_n =>
          [("[" ++ rel.name ++ "] " ++ rel.from_.table ++ "(" ++
              pyJoin ", " rel.from_.columns ++ ") uniqueness (1-side)",
            build_uniqueness_sql (quoted rel.from_.table) (rel.from_.columns.map quoted)),
           ("[" ++ rel.name ++ "] " ++ rel.to_.table ++ " -> " ++ rel.from_.table ++
              " referential integrity", refTF)]
        | .n_one =>
          [("[" ++ rel.name ++ "] " ++ rel.to_.table ++ "(" ++
              pyJoin ", " rel.to_.columns ++ ") uniqueness (1-side)",
            build_uniqueness_sql (quoted rel.to_.table) (rel.to_.columns.map quoted)),
           ("[" ++ rel.name ++ "] " ++ rel.from_.table ++ " -> " ++ rel.to_.table ++
              " referential integrity", refFT)]
        | .n_n =>
          [("[" ++ rel.name ++ "] " ++ rel.from_.table ++ " -> " ++ rel.to_.table ++
              " referential integrity", refFT),
           ("[" ++ rel.name ++ "] " ++ rel.to_.table ++ " -> " ++ rel.from_.table ++
              " referential integrity", refTF)]) := by
  obtain ⟨hfv, htv, hfcv, htcv⟩ := hv
  have hft := quote_identifier_ok_quoted hfv
  have htt := quote_identifier_ok_quoted htv
  have hfcs : exMapM quote_identifier rel.from_.columns = .ok (rel.from_.columns.map quoted) :=
    exMapM_eq_map (fun c hc => quote_identifier_ok_quoted (hfcv c hc))
  have htcs : exMapM quote_identifier rel.to_.columns = .ok (rel.to_.columns.map quoted) :=
    exMapM_eq_map (fun c hc => quote_identifier_ok_quoted (htcv c hc))
  have harm : (rel.from_.columns.map quoted).length = (rel.to_.columns.map quoted).length := by
    rw [List.length_map, List.length_map, har]
  have h1 := build_referential_sql_ok (u := quoted rel.from_.table) (v := quoted rel.to_.table)
    harm
  have h2 := build_referential_sql_ok (u := quoted rel.to_.table) (v := quoted rel.from_.table)
    harm.symm
  refine ⟨_, _, h1, h2, ?_⟩
  unfold build_relation_checks
  rw [hft, except_bind_ok, htt, except_bind_ok, hfcs, except_bind_ok, htcs, except_bind_ok]
  cases hcard : rel.cardinality
  all_goals simp only [h1, h2, except_bind_ok]
  all_goals rfl

/-- Counterexample to C5 as stated: check generation is not total over
relation definitions — an endpoint table name rejected by the identifier
guard raises `ValueError`, as does an arity mismatch between the two
column lists (`zip(..., strict=True)`), so no checks are generated. -/
theorem relation_check_generation_cex :
    build_relation_checks ⟨"r1", .n_n, ⟨"bad name", ["id"]⟩, ⟨"users", ["id"]⟩⟩
      = .error "Invalid identifier: 'bad name'"
    ∧ build_relation_checks ⟨"r2", .n_n, ⟨"orders", ["a", "b"]⟩, ⟨"users", ["id"]⟩⟩
      = .error "zip() argument lengths differ (strict=True)" := by
  constructor <;> rfl

/-- Witness for C5 at a concrete 1:1 relation: four checks generated. -/
theorem relation_check_generation_spec_witness :
    ∃ cs, build_relation_checks
      ⟨"users_orders", .one_one, ⟨"users", ["user_id"]⟩, ⟨"orders", ["user_id"]⟩⟩ = .ok cs
      ∧ cs.length = 4 := by
  obtain ⟨rFT, rTF, _, _, h3⟩ := relation_check_generation_spec
    ⟨"users_orders", .one_one, ⟨"users", ["user_id"]⟩, ⟨"orders", ["user_id"]⟩⟩
    ⟨by decide, by decide, by decide, by decide⟩ (by decide)
  exact ⟨_, h3, rfl⟩

/-! ## C3: check execution and classification -/

theorem string_prefix_ne_empty (p s : String) (hp : p.data ≠ []) : p ++ s ≠ "" := by
  intro h
  have hd : (p ++ s).data = [] := by rw [h]
  rw [String.data_append] at hd
  exact hp (List.append_eq_nil.mp hd).1

/-- **C3 (amended).** For every check executed on a non-tainted table whose
name passes the identifier guard (an invalid table name raises before any
query runs): with `expect_zero` a fetched count of 0 yields OK and a
count > 0 yields NG with the message reporting the count; with
`expect_zero` false a count > 0 yields OK and a count of 0 yields NG; if
query execution raises, the result has status ERROR and carries the raised
diagnostic as its message.  The message is empty on OK and non-empty on
NG; it is empty exactly on OK provided every raised diagnostic is
non-empty (an empty raised diagnostic yields ERROR with an empty
message). -/
theorem execute_check_classification (conn : Conn) (check : CheckDef) (tname : String)
    (hv : matchesIdent tname = true) :
    ∃ r, execute_check conn check tname = .ok r
      ∧ r.description = check.description
      ∧ r.query = pyReplace check.query "{table}" (quoted tname)
      ∧ (∀ fetched,
          conn (pyReplace check.query "{table}" (quoted tname)) (paramsOrNone check)
            = .rows fetched →
          r.result_count = some (fetched.getD 0)
          ∧ (check.expect_zero = true →
              (fetched.getD 0 = 0 → r.status = .OK)
              ∧ (fetched.getD 0 > 0 → r.status = .NG
                  ∧ r.message = "Result count: " ++ toString (fetched.getD 0)))
          ∧ (check.expect_zero = false →
              (fetched.getD 0 > 0 → r.status = .OK)
              ∧ (fetched.getD 0 = 0 → r.status = .NG)))
      ∧ (∀ e,
          conn (pyReplace check.query "{table}" (quoted tname)) (paramsOrNone check)
            = .raised e →
          r.status = .ERROR ∧ r.message = e)
      ∧ (r.status = .OK → r.message = "")
      ∧ (r.status = .NG → r.message ≠ "")
      ∧ ((∀ e,
            conn (pyReplace check.query "{table}" (quoted tname)) (paramsOrNone check)
              = .raised e → e ≠ "") →
          (r.message = "" ↔ r.status = .OK)) := by
  unfold execute_check
  rw [quote_identifier_ok_quoted hv, except_bind_ok]
  rcases h : conn (pyReplace check.query "{table}" (quoted tname)) (paramsOrNone check)
    with fetched | e
  · simp only [h]
    refine ⟨_, rfl, rfl, rfl, ?_, ?_, ?_, ?_, ?_⟩
    · intro f hf
      injection hf with hff
      subst hff
      refine ⟨rfl, ?_, ?_⟩
      · intro hez
        refine ⟨fun hc0 => by simp [hez, hc0], fun hcpos => ?_⟩
        have hcne : ¬ (fetched.getD 0 = 0) := by omega
        exact ⟨by simp [hez, hcne], by simp [hez, hcne]⟩
      · intro hez
        exact ⟨fun hcpos => by simp [hez, hcpos], fun hc0 => by simp [hez, hc0]⟩
    · intro e' he'
      exact absurd he' (by simp)
    · intro hst
      dsimp only at hst ⊢
      rw [hst]
      simp
    · intro hst
      dsimp only at hst ⊢
      rw [hst, if_neg (by simp)]
      exact string_prefix_ne_empty _ _ (by decide)
    · intro _
      dsimp only
      by_cases hst :
          (if check.expect_zero = true then
            (if fetched.getD 0 = 0 then CheckStatus.OK else CheckStatus.NG)
          else (if fetched.getD 0 > 0 then CheckStatus.OK else CheckStatus.NG)) = .OK
      · rw [hst]
        simp
      · rw [if_neg hst]
        constructor
        · intro hme
          exact absurd hme (string_prefix_ne_empty _ _ (by decide))
        · intro hOK
          exact absurd hOK hst
  · simp only [h]
    refine ⟨_, rfl, rfl, rfl, ?_, ?_, ?_, ?_, ?_⟩
    · intro f hf
      exact absurd hf (by simp)
    · intro e' he'
      injection he' with hee
      subst hee
      exact ⟨rfl, rfl⟩
    · intro hst
      simp at hst
    · intro hst
      simp at hst
    · intro hprem
      have hne : e ≠ "" := hprem e rfl
      constructor
      · intro hme
        exact absurd hme hne
      · intro hst
        simp at hst

/-- Counterexample to C3 as stated: (1) with a table name rejected by the
identifier guard the guard raises before any query executes, so no result
is produced at all; (2) a raised exception whose diagnostic is the empty
string yields an ERROR result whose message is empty, so the message is
not empty exactly on OK. -/
theorem execute_check_classification_cex :
    execute_check (fun _ _ => .rows (some 0))
        ⟨"d", "SELECT COUNT(*) FROM {table}", true, []⟩ "bad name"
      = .error "Invalid identifier: 'bad name'"
    ∧ execute_check (fun _ _ => .raised "") ⟨"d", "SELECT 1", true, []⟩ "t"
      = .ok ⟨"d", "SELECT 1", .ERROR, none, ""⟩
    ∧ (CheckResult.message ⟨"d", "SELECT 1", .ERROR, none, ""⟩ = ""
        ∧ CheckResult.status ⟨"d", "SELECT 1", .ERROR, none, ""⟩ ≠ .OK) := by
  refine ⟨rfl, rfl, rfl, by decide⟩

/-- Witness for C3: a concrete zero-count execution is classified OK with
an empty message. -/
theorem execute_check_classification_witness :
    ∃ r, execute_check (fun _ _ => .rows (some 0))
        ⟨"neg check", "SELECT COUNT(*) FROM {table} WHERE x < 0", true, []⟩ "t" = .ok r
      ∧ r.status = .OK ∧ r.message = "" := by
  obtain ⟨r, hok, _, _, hrows, _, hOKmsg, _, _⟩ :=
    execute_check_classification (fun _ _ => .rows (some 0))
      ⟨"neg check", "SELECT COUNT(*) FROM {table} WHERE x < 0", true, []⟩ "t" (by decide)
  have hst := ((hrows (some 0) rfl).2.1 rfl).1 rfl
  exact ⟨r, hok, hst, hOKmsg hst⟩

/-! ## C2: tainted tables skip every check -/

theorem except_pure_eq_ok {α ε : Type} (a : α) : (pure a : Except ε α) = .ok a := rfl

theorem replaceFuel_of_not_contains {needle repl : List Char} :
    ∀ (fuel : Nat) (l : List Char), strContainsB l needle = false →
      replaceFuel needle repl fuel l = l := by
  intro fuel
  induction fuel with
  | zero =>
    intro l _
    cases l <;> rfl
  | succ n ih =>
    intro l h
    cases l with
    | nil => rfl
    | cons c rest =>
      unfold strContainsB at h
      rw [Bool.or_eq_false_iff] at h
      unfold replaceFuel
      rw [if_neg (by simp [h.1])]
      rw [ih rest h.2]

theorem pyReplace_of_not_contains {hay needle repl : String}
    (h : pyContains hay needle = false) :
    pyReplace hay needle repl = hay := by
  unfold pyReplace
  rw [replaceFuel_of_not_contains _ _ h]

theorem make_skipped_result_ok {tname : String} (hv : matchesIdent tname = true)
    (c : CheckDef) (msg : String) :
    make_skipped_result c tname msg = .ok
      { description := c.description
        query := if pyContains c.query "{table}"
                 then pyReplace c.query "{table}" (quoted tname) else c.query
        status := .SKIPPED
        result_count := none
        message := msg } := by
  unfold make_skipped_result
  by_cases hc : pyContains c.query "{table}"
  · rw [if_pos hc, if_pos hc, quote_identifier_ok_quoted hv]
    rfl
  · rw [if_neg hc, if_neg hc]
    rfl

theorem build_allowed_values_check_ok {col : ColumnDef} (h : matchesIdent col.name = true) :
    build_allowed_values_check col = .ok
      { description := col.logical_name ++ "(" ++ col.name ++ ") allowed values check"
        query := "SELECT COUNT(*) FROM {table} WHERE " ++ quoted col.name ++
          " NOT IN (SELECT UNNEST(?::VARCHAR[])) AND " ++ quoted col.name ++ " IS NOT NULL"
        expect_zero := true
        params := [Param.strList col.allowed_values] } := by
  unfold build_allowed_values_check
  rw [quote_identifier_ok_quoted h, except_bind_ok]
  exact rfl

theorem build_range_check_ok {col : ColumnDef} (h : matchesIdent col.name = true) :
    ∃ c, build_range_check col = .ok c := by
  unfold build_range_check
  rw [quote_identifier_ok_quoted h, except_bind_ok]
  exact ⟨_, rfl⟩

/-- Every identifier quoted while building or skipping a table's checks is
valid: the table name and all column names. -/
def tableNamesValid (tdef : TableDef) : Prop :=
  matchesIdent tdef.table.name = true ∧ ∀ col ∈ tdef.columns, matchesIdent col.name = true

/-- **C2 (amended).** For every table definition whose table and column
names pass the identifier guard, and every non-empty list of load errors,
`run_checks` returns every check result — built-in allowed-values, built-in
range, row-condition, user-defined, and every aggregation-check result —
with status SKIPPED and message `Skipped due to load error`, and consults
the connection for nothing: the result is identical for any two
connections. -/
theorem run_checks_tainted_all_skipped (conn conn2 : Conn) (tdef : TableDef)
    (errs : List LoadError) (hne : errs ≠ []) (hv : tableNamesValid tdef) :
    ∃ res agg,
      run_checks conn tdef errs = .ok (res, agg)
      ∧ (∀ r ∈ res ++ agg, r.status = .SKIPPED ∧ r.message = "Skipped due to load error")
      ∧ run_checks conn tdef errs = run_checks conn2 tdef errs := by
  obtain ⟨hvt, hvc⟩ := hv
  have hemp : errs.isEmpty = false := by
    cases errs with
    | nil => exact absurd rfl hne
    | cons e es => rfl
  -- family 1: allowed values
  obtain ⟨ys1, h1, hp1⟩ := exMapM_ok_forall
    (l := allowedValueCols tdef)
    (f := fun col => do
      let c ← build_allowed_values_check col
      make_skipped_result c tdef.table.name "Skipped due to load error")
    (P := fun r => r.status = CheckStatus.SKIPPED ∧ r.message = "Skipped due to load error")
    (fun col hcol => by
      have hcm : matchesIdent col.name = true :=
        hvc col (List.mem_of_mem_filter hcol)
      dsimp only
      rw [build_allowed_values_check_ok hcm, except_bind_ok,
        make_skipped_result_ok hvt _ _]
      exact ⟨_, rfl, rfl, rfl⟩)
  -- family 2: range
  obtain ⟨ys2, h2, hp2⟩ := exMapM_ok_forall
    (l := rangeCols tdef)
    (f := fun col => do
      let c ← build_range_check col
      make_skipped_result c tdef.table.name "Skipped due to load error")
    (P := fun r => r.status = CheckStatus.SKIPPED ∧ r.message = "Skipped due to load error")
    (fun col hcol => by
      have hcm : matchesIdent col.name = true :=
        hvc col (List.mem_of_mem_filter hcol)
      obtain ⟨c, hc⟩ := build_range_check_ok hcm
      dsimp only
      rw [hc, except_bind_ok, make_skipped_result_ok hvt _ _]
      exact ⟨_, rfl, rfl, rfl⟩)
  -- family 3: row conditions
  obtain ⟨ys3, h3, hp3⟩ := exMapM_ok_forall
    (l := tdef.table_constraints.row_conditions)
    (f := fun rc => make_skipped_result (build_row_condition_check rc)
      tdef.table.name "Skipped due to load error")
    (P := fun r => r.status = CheckStatus.SKIPPED ∧ r.message = "Skipped due to load error")
    (fun rc _ => by
      dsimp only
      rw [make_skipped_result_ok hvt _ _]
      exact ⟨_, rfl, rfl, rfl⟩)
  -- family 4: user checks
  obtain ⟨ys4, h4, hp4⟩ := exMapM_ok_forall
    (l := tdef.table_constraints.checks)
    (f := fun c => make_skipped_result c tdef.table.name "Skipped due to load error")
    (P := fun r => r.status = CheckStatus.SKIPPED ∧ r.message = "Skipped due to load error")
    (fun c _ => by
      dsimp only
      rw [make_skipped_result_ok hvt _ _]
      exact ⟨_, rfl, rfl, rfl⟩)
  -- aggregation checks
  obtain ⟨ys5, h5, hp5⟩ := exMapM_ok_forall
    (l := tdef.table_constraints.aggregation_checks)
    (f := fun c => make_skipped_result c tdef.table.name "Skipped due to load error")
    (P := fun r => r.status = CheckStatus.SKIPPED ∧ r.message = "Skipped due to load error")
    (fun c _ => by
      dsimp only
      rw [make_skipped_result_ok hvt _ _]
      exact ⟨_, rfl, rfl, rfl⟩)
  refine ⟨ys1 ++ ys2 ++ ys3 ++ ys4, ys5, ?_, ?_, ?_⟩
  · simp only [run_checks, hemp, Bool.false_eq_true, if_false,
      h1, h2, h3, h4, h5, except_bind_ok, except_pure_eq_ok]
  · intro r hr
    rcases List.mem_append.mp hr with hr | hr
    · rcases List.mem_append.mp hr with hr | hr
      · rcases List.mem_append.mp hr with hr | hr
        · rcases List.mem_append.mp hr with hr | hr
          · exact hp1 r hr
          · exact hp2 r hr
        · exact hp3 r hr
      · exact hp4 r hr
    · exact hp5 r hr
  · simp only [run_checks, hemp, Bool.false_eq_true, if_false]

/-- A table whose name is rejected by the identifier guard, carrying one
user check whose query mentions `{table}` (constructible through the
parser, which never validates name characters). -/
def cexTableBadName : TableDef :=
  ⟨⟨"bad name", "", "data/t"⟩,
   [⟨"id", "ID", "INTEGER", true, "", [], none, none, none⟩],
   ⟨[], [], [], [⟨"c1", "SELECT COUNT(*) FROM {table}", true, []⟩], [], []⟩, {}⟩

/-- Counterexample to C2 as stated: for a tainted table whose name fails
the identifier guard, `run_checks` raises `ValueError` from the guard while
constructing the skipped results instead of returning SKIPPED results. -/
theorem run_checks_tainted_cex :
    run_checks (fun _ _ => .rows (some 0)) cexTableBadName
        [⟨"d/f.csv", "UNKNOWN", none, none, "boom"⟩]
      = .error "Invalid identifier: 'bad name'"
    ∧ ¬ ∃ pair, run_checks (fun _ _ => .rows (some 0)) cexTableBadName
        [⟨"d/f.csv", "UNKNOWN", none, none, "boom"⟩] = .ok pair := by
  have h : run_checks (fun _ _ => .rows (some 0)) cexTableBadName
      [⟨"d/f.csv", "UNKNOWN", none, none, "boom"⟩]
      = .error "Invalid identifier: 'bad name'" := rfl
  refine ⟨h, ?_⟩
  intro ⟨pair, hp⟩
  rw [h] at hp
  exact Except.noConfusion hp

/-- A fully valid table exercising every check family. -/
def witTable : TableDef :=
  ⟨⟨"orders", "", "data/orders"⟩,
   [⟨"status", "Status", "VARCHAR", false, "", ["pending", "shipped"], none, none, none⟩,
    ⟨"amount", "Amount", "INTEGER", false, "", [], none, some 0, some 100⟩],
   ⟨[], [], [],
    [⟨"uc", "SELECT COUNT(*) FROM {table} WHERE amount < 0", true, []⟩],
    [⟨"agg", "SELECT COUNT(*) FROM {table}", false, []⟩],
    [⟨"non-negative amount", "amount >= 0"⟩]⟩, {}⟩

/-- Witness for C2 on a concrete tainted table with every check family
populated, compared across two different connections. -/
theorem run_checks_tainted_witness :
    ∃ res agg,
      run_checks (fun _ _ => .rows (some 7)) witTable
          [⟨"data/orders/x.csv", "NO_FILES", none, none, "m"⟩] = .ok (res, agg)
      ∧ (∀ r ∈ res ++ agg, r.status = .SKIPPED ∧ r.message = "Skipped due to load error")
      ∧ run_checks (fun _ _ => .rows (some 7)) witTable
          [⟨"data/orders/x.csv", "NO_FILES", none, none, "m"⟩]
        = run_checks (fun _ _ => .raised "down") witTable
          [⟨"data/orders/x.csv", "NO_FILES", none, none, "m"⟩] :=
  run_checks_tainted_all_skipped (fun _ _ => .rows (some 7)) (fun _ _ => .raised "down")
    witTable [⟨"data/orders/x.csv", "NO_FILES", none, none, "m"⟩]
    (by decide) ⟨by decide, by decide⟩

/-! ## C10: the check plan is independent of taint -/

theorem execute_check_fields (conn : Conn) (c : CheckDef) {tname : String}
    (hv : matchesIdent tname = true) :
    ∃ z, execute_check conn c tname = .ok z ∧ z.description = c.description
      ∧ z.query = pyReplace c.query "{table}" (quoted tname) := by
  unfold execute_check
  rw [quote_identifier_ok_quoted hv, except_bind_ok]
  rcases h : conn (pyReplace c.query "{table}" (quoted tname)) (paramsOrNone c) with f | e
  · simp only [h]
    exact ⟨_, rfl, rfl, rfl⟩
  · simp only [h]
    exact ⟨_, rfl, rfl, rfl⟩

theorem skip_query_eq_exec_query {c : CheckDef} {tname : String} :
    (if pyContains c.query "{table}"
     then pyReplace c.query "{table}" (quoted tname) else c.query)
    = pyReplace c.query "{table}" (quoted tname) := by
  by_cases hct : pyContains c.query "{table}" = true
  · rw [if_pos hct]
  · rw [if_neg hct, pyReplace_of_not_contains (Bool.not_eq_true _ ▸ hct)]

theorem make_skipped_fields (c : CheckDef) {tname : String}
    (hv : matchesIdent tname = true) (msg : String) :
    ∃ y, make_skipped_result c tname msg = .ok y ∧ y.description = c.description
      ∧ y.query = pyReplace c.query "{table}" (quoted tname)
      ∧ y.status = .SKIPPED ∧ y.message = msg := by
  rw [make_skipped_result_ok hv c msg]
  exact ⟨_, rfl, rfl, skip_query_eq_exec_query, rfl, rfl⟩

theorem exMapM_skip_exec_proj {α : Type} {b : α → Except String CheckDef}
    {tname m : String} (hv : matchesIdent tname = true) (conn : Conn) :
    ∀ {l : List α}, (∀ x ∈ l, ∃ c, b x = .ok c) →
    ∃ ys zs,
      exMapM (fun x => do
        let c ← b x
        make_skipped_result c tname m) l = .ok ys
      ∧ exMapM (fun x => do
        let c ← b x
        execute_check conn c tname) l = .ok zs
      ∧ ys.map (fun r => (r.description, r.query))
        = zs.map (fun r => (r.description, r.query)) := by
  intro l
  induction l with
  | nil => exact fun _ => ⟨[], [], rfl, rfl, rfl⟩
  | cons x xs ih =>
    intro hb
    obtain ⟨c, hc⟩ := hb x (List.mem_cons_self x xs)
    obtain ⟨ys, zs, hys, hzs, hproj⟩ := ih (fun y hy => hb y (List.mem_cons_of_mem x hy))
    obtain ⟨z, hz, hzd, hzq⟩ := execute_check_fields conn c hv
    obtain ⟨y, hy, hyd, hyq, _, _⟩ := make_skipped_fields c hv m
    refine ⟨y :: ys, z :: zs, ?_, ?_, ?_⟩
    · simp only [exMapM, hc, except_bind_ok, hy, hys, except_pure_eq_ok]
    · simp only [exMapM, hc, except_bind_ok, hz, hzs, except_pure_eq_ok]
    · simp only [List.map_cons, hproj, hzd, hzq, hyd, hyq]

theorem exMapM_skip_exec_proj_total {α : Type} {b : α → CheckDef}
    {tname m : String} (hv : matchesIdent tname = true) (conn : Conn) :
    ∀ (l : List α),
    ∃ ys zs,
      exMapM (fun x => make_skipped_result (b x) tname m) l = .ok ys
      ∧ exMapM (fun x => execute_check conn (b x) tname) l = .ok zs
      ∧ ys.map (fun r => (r.description, r.query))
        = zs.map (fun r => (r.description, r.query)) := by
  intro l
  induction l with
  | nil => exact ⟨[], [], rfl, rfl, rfl⟩
  | cons x xs ih =>
    obtain ⟨ys, zs, hys, hzs, hproj⟩ := ih
    obtain ⟨z, hz, hzd, hzq⟩ := execute_check_fields conn (b x) hv
    obtain ⟨y, hy, hyd, hyq, _, _⟩ := make_skipped_fields (b x) hv m
    refine ⟨y :: ys, z :: zs, ?_, ?_, ?_⟩
    · simp only [exMapM, hy, except_bind_ok, hys, except_pure_eq_ok]
    · simp only [exMapM, hz, except_bind_ok, hzs, except_pure_eq_ok]
    · simp only [List.map_cons, hproj, hzd, hzq, hyd, hyq]

theorem exMapM_skip_exec_proj_id {tname m : String}
    (hv : matchesIdent tname = true) (conn : Conn) :
    ∀ (l : List CheckDef),
    ∃ ys zs,
      exMapM (fun c => make_skipped_result c tname m) l = .ok ys
      ∧ exMapM (fun c => execute_check conn c tname) l = .ok zs
      ∧ ys.map (fun r => (r.description, r.query))
        = zs.map (fun r => (r.description, r.query)) := by
  intro l
  induction l with
  | nil => exact ⟨[], [], rfl, rfl, rfl⟩
  | cons x xs ih =>
    obtain ⟨ys, zs, hys, hzs, hproj⟩ := ih
    obtain ⟨z, hz, hzd, hzq⟩ := execute_check_fields conn x hv
    obtain ⟨y, hy, hyd, hyq, _, _⟩ := make_skipped_fields x hv m
    refine ⟨y :: ys, z :: zs, ?_, ?_, ?_⟩
    · simp only [exMapM, hy, except_bind_ok, hys, except_pure_eq_ok]
    · simp only [exMapM, hz, except_bind_ok, hzs, except_pure_eq_ok]
    · simp only [List.map_cons, hproj, hzd, hzq, hyd, hyq]

/-- **C10 (amended).** For every table definition whose table and column
names pass the identifier guard, the sequence of
`(description, resolved query)` pairs produced by `run_checks` is the same
whether or not load errors are present: the tainted-table skip path emits
one SKIPPED result per check that the execution path would run, in the
identical family order (allowed values per column, range per column, row
conditions, user checks; aggregation checks as their own list), with the
`{table}` placeholder substituted identically. -/
theorem check_plan_taint_invariant (conn conn2 : Conn) (tdef : TableDef)
    (errs : List LoadError) (hne : errs ≠ []) (hv : tableNamesValid tdef) :
    ∃ res agg res2 agg2,
      run_checks conn tdef errs = .ok (res, agg)
      ∧ run_checks conn2 tdef [] = .ok (res2, agg2)
      ∧ res.map (fun r => (r.description, r.query))
        = res2.map (fun r => (r.description, r.query))
      ∧ agg.map (fun r => (r.description, r.query))
        = agg2.map (fun r => (r.description, r.query)) := by
  obtain ⟨hvt, hvc⟩ := hv
  have hemp : errs.isEmpty = false := by
    cases errs with
    | nil => exact absurd rfl hne
    | cons e es => rfl
  obtain ⟨ys1, zs1, hs1, he1, hproj1⟩ := exMapM_skip_exec_proj
    (b := build_allowed_values_check) (m := "Skipped due to load error") hvt conn2
    (l := allowedValueCols tdef)
    (fun col hcol => ⟨_, build_allowed_values_check_ok
      (hvc col (List.mem_of_mem_filter hcol))⟩)
  obtain ⟨ys2, zs2, hs2, he2, hproj2⟩ := exMapM_skip_exec_proj
    (b := build_range_check) (m := "Skipped due to load error") hvt conn2
    (l := rangeCols tdef)
    (fun col hcol => build_range_check_ok (hvc col (List.mem_of_mem_filter hcol)))
  obtain ⟨ys3, zs3, hs3, he3, hproj3⟩ := exMapM_skip_exec_proj_total
    (b := build_row_condition_check) (m := "Skipped due to load error") hvt conn2
    tdef.table_constraints.row_conditions
  obtain ⟨ys4, zs4, hs4, he4, hproj4⟩ := exMapM_skip_exec_proj_id
    (m := "Skipped due to load error") hvt conn2 tdef.table_constraints.checks
  obtain ⟨ys5, zs5, hs5, he5, hproj5⟩ := exMapM_skip_exec_proj_id
    (m := "Skipped due to load error") hvt conn2 tdef.table_constraints.aggregation_checks
  refine ⟨ys1 ++ ys2 ++ ys3 ++ ys4, ys5, zs1 ++ zs2 ++ zs3 ++ zs4, zs5, ?_, ?_, ?_, ?_⟩
  · simp only [run_checks, hemp, Bool.false_eq_true, if_false,
      hs1, hs2, hs3, hs4, hs5, except_bind_ok, except_pure_eq_ok]
  · simp only [run_checks, List.isEmpty_nil, if_true,
      he1, he2, he3, he4, he5, except_bind_ok, except_pure_eq_ok]
  · simp only [List.map_append, hproj1, hproj2, hproj3, hproj4]
  · exact hproj5

/-- A table whose name fails the identifier guard and whose single user
check does not mention `{table}`. -/
def cexTableNoPlaceholder : TableDef :=
  ⟨⟨"bad name", "", "data/t"⟩,
   [⟨"id", "ID", "INTEGER", true, "", [], none, none, none⟩],
   ⟨[], [], [], [⟨"c1", "SELECT 1", true, []⟩], [], []⟩, {}⟩

/-- Counterexample to C10 as stated: on a table whose name fails the
identifier guard, the tainted path returns one SKIPPED result (the query
contains no `{table}`, so nothing is quoted) while the clean path raises
from the guard — the two paths do not produce the same sequence of
`(description, query)` pairs. -/
theorem check_plan_taint_invariant_cex :
    run_checks (fun _ _ => .rows (some 0)) cexTableNoPlaceholder
        [⟨"d/f.csv", "UNKNOWN", none, none, "boom"⟩]
      = .ok ([⟨"c1", "SELECT 1", .SKIPPED, none, "Skipped due to load error"⟩], [])
    ∧ run_checks (fun _ _ => .rows (some 0)) cexTableNoPlaceholder []
      = .error "Invalid identifier: 'bad name'" := ⟨rfl, rfl⟩

/-- Witness for C10 on a concrete valid table with every check family
populated. -/
theorem check_plan_taint_invariant_witness :
    ∃ res agg res2 agg2,
      run_checks (fun _ _ => .rows (some 7)) witTable
          [⟨"data/orders/x.csv", "NO_FILES", none, none, "m"⟩] = .ok (res, agg)
      ∧ run_checks (fun _ _ => .rows (some 0)) witTable [] = .ok (res2, agg2)
      ∧ res.map (fun r => (r.description, r.query))
        = res2.map (fun r => (r.description, r.query))
      ∧ agg.map (fun r => (r.description, r.query))
        = agg2.map (fun r => (r.description, r.query)) :=
  check_plan_taint_invariant (fun _ _ => .rows (some 7)) (fun _ _ => .rows (some 0))
    witTable [⟨"data/orders/x.csv", "NO_FILES", none, none, "m"⟩]
    (by decide) ⟨by decide, by decide⟩

/-! ## C4: relation skip rule

Supporting string lemmas: substring containment through concatenation and
joining, and the fact that SQL text generated from guarded identifiers
never contains a `\x7b` character, so the relation skip path never quotes
the (unvalidated) relation name. -/

theorem strContainsB_of_isEmpty {hay : List Char} {needle : List Char}
    (h : needle = []) : strContainsB hay needle = true := by
  subst h
  cases hay <;> rfl

theorem strContainsB_append_left {x n : List Char} (y : List Char)
    (h : strContainsB x n = true) : strContainsB (x ++ y) n = true := by
  induction x with
  | nil =>
    unfold strContainsB at h
    exact strContainsB_of_isEmpty (List.isEmpty_iff.mp h)
  | cons c rest ih =>
    simp only [strContainsB, List.cons_append] at h ⊢
    rw [Bool.or_eq_true] at h ⊢
    rcases h with h | h
    · left
      rw [List.isPrefixOf_iff_prefix] at h ⊢
      exact h.trans (List.prefix_append _ _)
    · right
      exact ih h

theorem strContainsB_append_right {y n : List Char} (x : List Char)
    (h : strContainsB y n = true) : strContainsB (x ++ y) n = true := by
  induction x with
  | nil => exact h
  | cons c rest ih =>
    simp only [strContainsB, List.cons_append]
    rw [Bool.or_eq_true]
    right
    exact ih

theorem strContainsB_self (n y : List Char) : strContainsB (n ++ y) n = true := by
  cases n with
  | nil => exact strContainsB_of_isEmpty rfl
  | cons c t =>
    simp only [strContainsB, List.cons_append]
    rw [Bool.or_eq_true]
    left
    rw [List.isPrefixOf_iff_prefix]
    exact List.prefix_append _ _

theorem pyContains_append_left {x n : String} (y : String)
    (h : pyContains x n = true) : pyContains (x ++ y) n = true := by
  unfold pyContains at h ⊢
  rw [String.data_append]
  exact strContainsB_append_left _ h

theorem pyContains_append_right {y n : String} (x : String)
    (h : pyContains y n = true) : pyContains (x ++ y) n = true := by
  unfold pyContains at h ⊢
  rw [String.data_append]
  exact strContainsB_append_right _ h

theorem pyContains_refl (n : String) : pyContains n n = true := by
  unfold pyContains
  have := strContainsB_self n.data []
  rwa [List.append_nil] at this

theorem pyJoin_contains_of_mem {sep x : String} :
    ∀ {parts : List String}, x ∈ parts → pyContains (pyJoin sep parts) x = true := by
  intro parts
  induction parts with
  | nil => intro h; simp at h
  | cons p rest ih =>
    intro h
    rcases List.mem_cons.mp h with h | h
    · subst h
      cases rest with
      | nil => exact pyContains_refl x
      | cons q qs =>
        show pyContains (x ++ sep ++ pyJoin sep (q :: qs)) x = true
        exact pyContains_append_left _ (pyContains_append_left _ (pyContains_refl x))
    · cases rest with
      | nil => simp at h
      | cons q qs =>
        show pyContains (p ++ sep ++ pyJoin sep (q :: qs)) x = true
        exact pyContains_append_right _ (ih h)

theorem strContainsB_false_of_head_not_mem {hay : List Char} {c : Char} {t : List Char}
    (h : c ∉ hay) : strContainsB hay (c :: t) = false := by
  induction hay with
  | nil => rfl
  | cons a rest ih =>
    simp only [strContainsB]
    rw [Bool.or_eq_false_iff]
    constructor
    · by_contra hp
      rw [Bool.not_eq_false, List.isPrefixOf_iff_prefix] at hp
      obtain ⟨s, hs⟩ := hp
      have : a = c := by
        have := congrArg (List.head?) hs
        simp at this
        exact this.symm
      exact h (this ▸ List.mem_cons_self a rest)
    · exact ih (fun hm => h (List.mem_cons_of_mem a hm))

/-- A query text that never mentions the placeholder character cannot
contain `\x7b table\x7d`, so `make_skipped_result` does not consult the
identifier guard on it. -/
theorem make_skipped_result_no_brace (c : CheckDef) {tname msg : String}
    (h : '{' ∉ c.query.data) :
    make_skipped_result c tname msg = .ok
      { description := c.description, query := c.query
        status := .SKIPPED, result_count := none, message := msg } := by
  unfold make_skipped_result
  have hc : pyContains c.query "{table}" = false :=
    strContainsB_false_of_head_not_mem h
  rw [if_neg (by simp [hc])]
  rfl

/-- The generated-SQL well-formedness invariant: the text never contains
the placeholder-opening character. -/
def noBrace (s : String) : Prop := '{' ∉ s.data

instance (s : String) : Decidable (noBrace s) :=
  inferInstanceAs (Decidable ('{' ∉ s.data))

theorem noBrace_append {a b : String} (ha : noBrace a) (hb : noBrace b) :
    noBrace (a ++ b) := by
  unfold noBrace at ha hb ⊢
  rw [String.data_append]
  intro h
  rcases List.mem_append.mp h with h | h
  · exact ha h
  · exact hb h

theorem identHeadChar_ne_brace {c : Char} (h : (c.isAlpha || c == '_') = true) :
    c ≠ '{' := by
  intro hc
  subst hc
  simp at h

theorem identTailChar_ne_brace {c : Char} (h : identTailChar c = true) : c ≠ '{' := by
  intro hc
  subst hc
  simp [identTailChar] at h

theorem matchesIdent_noBrace {n : String} (h : matchesIdent n = true) : noBrace n := by
  intro hmem
  unfold matchesIdent at h
  cases hd : n.data with
  | nil => rw [hd] at hmem; simp at hmem
  | cons c rest =>
    rw [hd] at h hmem
    simp only [Bool.and_eq_true] at h
    rcases List.mem_cons.mp hmem with hc | hc
    · exact identHeadChar_ne_brace h.1 hc.symm
    · exact identTailChar_ne_brace (List.all_eq_true.mp h.2 _ hc) rfl

theorem noBrace_quoted {n : String} (h : matchesIdent n = true) : noBrace (quoted n) := by
  unfold quoted
  exact noBrace_append (noBrace_append (by decide) (matchesIdent_noBrace h)) (by decide)

theorem noBrace_pyJoin {sep : String} (hsep : noBrace sep) :
    ∀ {parts : List String}, (∀ p ∈ parts, noBrace p) → noBrace (pyJoin sep parts) := by
  intro parts
  induction parts with
  | nil =>
    intro _ h
    rw [show pyJoin sep [] = "" from rfl] at h
    exact absurd h (by decide)
  | cons p rest ih =>
    intro hall
    cases rest with
    | nil => exact hall p (List.mem_singleton.mpr rfl)
    | cons q qs =>
      show noBrace (p ++ sep ++ pyJoin sep (q :: qs))
      exact noBrace_append
        (noBrace_append (hall p (List.mem_cons_self _ _)) hsep)
        (ih (fun r hr => hall r (List.mem_cons_of_mem _ hr)))

theorem of_mem_zipWith {α β γ : Type} {f : α → β → γ} :
    ∀ {as : List α} {bs : List β} {x : γ}, x ∈ List.zipWith f as bs →
      ∃ a ∈ as, ∃ b ∈ bs, x = f a b := by
  intro as
  induction as with
  | nil => intro bs x h; simp at h
  | cons a arest ih =>
    intro bs x h
    cases bs with
    | nil => simp at h
    | cons b brest =>
      rw [List.zipWith_cons_cons] at h
      rcases List.mem_cons.mp h with h | h
      · exact ⟨a, List.mem_cons_self _ _, b, List.mem_cons_self _ _, h⟩
      · obtain ⟨a2, ha2, b2, hb2, hx⟩ := ih h
        exact ⟨a2, List.mem_cons_of_mem _ ha2, b2, List.mem_cons_of_mem _ hb2, hx⟩

theorem noBrace_uniqueness_sql {table : String} {cols : List String}
    (ht : noBrace table) (hc : ∀ c ∈ cols, noBrace c) :
    noBrace (build_uniqueness_sql table cols) := by
  have hj : noBrace (pyJoin ", " cols) := noBrace_pyJoin (by decide) hc
  unfold noBrace at ht hj ⊢
  unfold build_uniqueness_sql
  intro hmem
  simp only [String.data_append, List.mem_append] at hmem
  rcases hmem with (((((h | h) | h) | h) | h) | h) | h
  · exact absurd h (by decide)
  · exact hj h
  · exact absurd h (by decide)
  · exact ht h
  · exact absurd h (by decide)
  · exact hj h
  · exact absurd h (by decide)

theorem noBrace_referential_sql {st tt : String} {scols tcols : List String}
    (hst : noBrace st) (htt : noBrace tt)
    (hs : ∀ c ∈ scols, noBrace c) (ht : ∀ c ∈ tcols, noBrace c) :
    noBrace ("SELECT COUNT(*) FROM " ++ st ++ " s LEFT JOIN " ++ tt ++ " t ON " ++
      pyJoin " AND " (List.zipWith (fun sc tc => "s." ++ sc ++ " = t." ++ tc) scols tcols) ++
      " WHERE " ++ pyJoin " AND " (scols.map (fun sc => "s." ++ sc ++ " IS NOT NULL")) ++
      " AND " ++ pyJoin " AND " (tcols.map (fun tc => "t." ++ tc ++ " IS NULL"))) := by
  have hj1 : noBrace (pyJoin " AND "
      (List.zipWith (fun sc tc => "s." ++ sc ++ " = t." ++ tc) scols tcols)) := by
    refine noBrace_pyJoin (by decide) ?_
    intro p hp
    obtain ⟨a, ha, b, hb, hx⟩ := of_mem_zipWith hp
    subst hx
    exact noBrace_append (noBrace_append (noBrace_append (by decide) (hs a ha)) (by decide))
      (ht b hb)
  have hj2 : noBrace (pyJoin " AND " (scols.map (fun sc => "s." ++ sc ++ " IS NOT NULL"))) := by
    refine noBrace_pyJoin (by decide) ?_
    intro p hp
    obtain ⟨a, ha, hx⟩ := List.mem_map.mp hp
    subst hx
    exact noBrace_append (noBrace_append (by decide) (hs a ha)) (by decide)
  have hj3 : noBrace (pyJoin " AND " (tcols.map (fun tc => "t." ++ tc ++ " IS NULL"))) := by
    refine noBrace_pyJoin (by decide) ?_
    intro p hp
    obtain ⟨a, ha, hx⟩ := List.mem_map.mp hp
    subst hx
    exact noBrace_append (noBrace_append (by decide) (ht a ha)) (by decide)
  unfold noBrace at hst htt hj1 hj2 hj3 ⊢
  intro hmem
  simp only [String.data_append, List.mem_append] at hmem
  rcases hmem with ((((((((h | h) | h) | h) | h) | h) | h) | h) | h) | h
  · exact absurd h (by decide)
  · exact hst h
  · exact absurd h (by decide)
  · exact htt h
  · exact absurd h (by decide)
  · exact hj1 h
  · exact absurd h (by decide)
  · exact hj2 h
  · exact absurd h (by decide)
  · exact hj3 h

/-- Under valid endpoint identifiers and equal arity, relation check
generation succeeds, produces a non-empty pair list, and every generated
query is brace-free (so the skip path never quotes the relation name). -/
theorem build_relation_checks_ok (rel : RelationDef)
    (hv : relationNamesValid rel)
    (har : rel.from_.columns.length = rel.to_.columns.length) :
    ∃ pairs, build_relation_checks rel = .ok pairs ∧ pairs ≠ []
      ∧ ∀ p ∈ pairs, noBrace p.2 := by
  obtain ⟨hfv, htv, hfcv, htcv⟩ := hv
  have hft := quote_identifier_ok_quoted hfv
  have htt := quote_identifier_ok_quoted htv
  have hfcs : exMapM quote_identifier rel.from_.columns = .ok (rel.from_.columns.map quoted) :=
    exMapM_eq_map (fun c hc => quote_identifier_ok_quoted (hfcv c hc))
  have htcs : exMapM quote_identifier rel.to_.columns = .ok (rel.to_.columns.map quoted) :=
    exMapM_eq_map (fun c hc => quote_identifier_ok_quoted (htcv c hc))
  have harm : (rel.from_.columns.map quoted).length = (rel.to_.columns.map quoted).length := by
    rw [List.length_map, List.length_map, har]
  have h1 := build_referential_sql_ok (u := quoted rel.from_.table) (v := quoted rel.to_.table)
    harm
  have h2 := build_referential_sql_ok (u := quoted rel.to_.table) (v := quoted rel.from_.table)
    harm.symm
  have hnbf : noBrace (quoted rel.from_.table) := noBrace_quoted hfv
  have hnbt : noBrace (quoted rel.to_.table) := noBrace_quoted htv
  have hnbfc : ∀ c ∈ rel.from_.columns.map quoted, noBrace c := by
    intro c hc
    obtain ⟨a, ha, hx⟩ := List.mem_map.mp hc
    exact hx ▸ noBrace_quoted (hfcv a ha)
  have hnbtc : ∀ c ∈ rel.to_.columns.map quoted, noBrace c := by
    intro c hc
    obtain ⟨a, ha, hx⟩ := List.mem_map.mp hc
    exact hx ▸ noBrace_quoted (htcv a ha)
  have hur1 := noBrace_referential_sql hnbf hnbt hnbfc hnbtc
  have hur2 := noBrace_referential_sql hnbt hnbf hnbtc hnbfc
  have huf := noBrace_uniqueness_sql hnbf hnbfc
  have hut := noBrace_uniqueness_sql hnbt hnbtc
  unfold build_relation_checks
  rw [hft, except_bind_ok, htt, except_bind_ok, hfcs, except_bind_ok, htcs, except_bind_ok]
  cases hcard : rel.cardinality
  all_goals simp only [h1, h2, except_bind_ok, except_pure_eq_ok]
  all_goals refine ⟨_, rfl, by simp, ?_⟩
  all_goals intro p hp
  all_goals simp only [List.mem_cons, List.not_mem_nil, or_false] at hp
  · rcases hp with hp | hp | hp | hp
    all_goals subst hp
    · exact huf
    · exact hut
    · exact hur1
    · exact hur2
  · rcases hp with hp | hp
    all_goals subst hp
    · exact huf
    · exact hur2
  · rcases hp with hp | hp
    all_goals subst hp
    · exact hut
    · exact hur1
  · rcases hp with hp | hp
    all_goals subst hp
    · exact hur1
    · exact hur2

theorem except_bind_error {α β ε : Type} (e : ε) (f : α → Except ε β) :
    (Except.error e : Except ε α) >>= f = .error e := rfl

theorem execRelationPair_status_ne_skipped (conn : Conn) (p : String × String) :
    (execRelationPair conn p).status ≠ .SKIPPED := by
  unfold execRelationPair
  rcases h : conn p.2 none with f | e
  · dsimp only
    by_cases hc : (f.getD 0 : Int) = 0
    · simp [hc]
    · simp [hc]
  · simp

theorem execRelationPair_classification (conn : Conn) (p : String × String) :
    (execRelationPair conn p).description = p.1
    ∧ (execRelationPair conn p).query = p.2
    ∧ (∀ fetched, conn p.2 none = .rows fetched →
        (execRelationPair conn p).result_count = some (fetched.getD 0)
        ∧ (fetched.getD 0 = 0 → (execRelationPair conn p).status = .OK
            ∧ (execRelationPair conn p).message = "")
        ∧ (fetched.getD 0 ≠ 0 → (execRelationPair conn p).status = .NG
            ∧ (execRelationPair conn p).message
              = "Result count: " ++ toString (fetched.getD 0)))
    ∧ (∀ e, conn p.2 none = .raised e →
        (execRelationPair conn p).status = .ERROR
        ∧ (execRelationPair conn p).message = e) := by
  unfold execRelationPair
  rcases h : conn p.2 none with f | e
  · refine ⟨rfl, rfl, ?_, ?_⟩
    · intro f2 hf2
      injection hf2 with hff
      subst hff
      refine ⟨rfl, ?_, ?_⟩
      · intro hc0
        constructor
        · simp [hc0]
        · simp [hc0]
      · intro hcne
        constructor
        · simp [hcne]
        · simp [hcne]
    · intro e he
      exact absurd he (by simp)
  · refine ⟨rfl, rfl, ?_, ?_⟩
    · intro f2 hf2
      exact absurd hf2 (by simp)
    · intro e2 he2
      injection he2 with hee
      subst hee
      exact ⟨rfl, rfl⟩

theorem run_relation_checks_mem_slice {conn : Conn}
    {aer : String → List LoadError} {cf : String → Bool} :
    ∀ {rels : List RelationDef} {L : List CheckResult},
      run_relation_checks conn aer cf rels = .ok L →
      ∀ {rel : RelationDef} {rs : List CheckResult}, rel ∈ rels →
        runRelationOne conn aer cf rel = .ok rs →
        ∃ pre post, L = pre ++ rs ++ post := by
  intro rels
  induction rels with
  | nil =>
    intro L _ rel rs hmem
    simp at hmem
  | cons x xs ih =>
    intro L h rel rs hmem hone
    unfold run_relation_checks at h
    cases hx : runRelationOne conn aer cf x with
    | error e =>
      rw [hx, except_bind_error] at h
      exact absurd h (by simp)
    | ok rs0 =>
      rw [hx, except_bind_ok] at h
      cases hrest : run_relation_checks conn aer cf xs with
      | error e =>
        rw [hrest, except_bind_error] at h
        exact absurd h (by simp)
      | ok more =>
        rw [hrest, except_bind_ok, except_pure_eq_ok] at h
        injection h with hL
        rcases List.mem_cons.mp hmem with rfl | hmem2
        · rw [hone] at hx
          injection hx with hx
          refine ⟨[], more, ?_⟩
          rw [← hL, hx]
          rfl
        · obtain ⟨pre, post, hpp⟩ := ih hrest hmem2 hone
          refine ⟨rs0 ++ pre, post, ?_⟩
          rw [← hL, hpp]
          simp [List.append_assoc]

theorem check_failed_tables_mem (reports : List TableReport) (n : String) :
    n ∈ check_failed_tables reports ↔
      ∃ rep ∈ reports, rep.table_def.table.name = n
        ∧ ∃ cr ∈ rep.check_results ++ rep.agg_check_results,
            (cr.status = .NG ∨ cr.status = .ERROR) := by
  unfold check_failed_tables reportHasCheckFailure
  constructor
  · intro h
    obtain ⟨rep, hrepf, hname⟩ := List.mem_map.mp h
    obtain ⟨hrep, hfail⟩ := List.mem_filter.mp hrepf
    obtain ⟨cr, hcr, hb⟩ := List.any_eq_true.mp hfail
    refine ⟨rep, hrep, hname, cr, hcr, ?_⟩
    have hb2 : cr.status = CheckStatus.NG ∨ cr.status = CheckStatus.ERROR := by
      simpa using hb
    exact hb2
  · intro ⟨rep, hrep, hname, cr, hcr, hst⟩
    refine List.mem_map.mpr ⟨rep, List.mem_filter.mpr ⟨hrep, ?_⟩, hname⟩
    refine List.any_eq_true.mpr ⟨cr, hcr, ?_⟩
    rcases hst with h | h
    · simp [h]
    · simp [h]

theorem mem_skippedTables (rel : RelationDef) (fe te : List LoadError) (fc tc : Bool) :
    (fe ≠ [] → rel.from_.table ∈ skippedTables rel fe te fc tc)
    ∧ (te ≠ [] → rel.to_.table ∈ skippedTables rel fe te fc tc)
    ∧ (fc = true → rel.from_.table ++ " (check failed)" ∈ skippedTables rel fe te fc tc)
    ∧ (tc = true → rel.to_.table ++ " (check failed)" ∈ skippedTables rel fe te fc tc) := by
  unfold skippedTables
  refine ⟨?_, ?_, ?_, ?_⟩
  · intro h
    apply List.mem_append.mpr; left
    apply List.mem_append.mpr; left
    apply List.mem_append.mpr; left
    rw [if_pos (by simp [List.isEmpty_eq_false.mpr h])]
    exact List.mem_singleton.mpr rfl
  · intro h
    apply List.mem_append.mpr; left
    apply List.mem_append.mpr; left
    apply List.mem_append.mpr; right
    rw [if_pos (by simp [List.isEmpty_eq_false.mpr h])]
    exact List.mem_singleton.mpr rfl
  · intro h
    apply List.mem_append.mpr; left
    apply List.mem_append.mpr; right
    rw [if_pos h]
    exact List.mem_singleton.mpr rfl
  · intro h
    apply List.mem_append.mpr; right
    rw [if_pos h]
    exact List.mem_singleton.mpr rfl

/-- **C4 (amended).** For every relation whose endpoint names are valid
identifiers and whose column lists have equal arity: `run_relation_checks`
returns all of that relation's check results with status SKIPPED if and
only if at least one endpoint table has load errors or at least one
endpoint is in the failed-check set (the set of table names whose report
contains at least one NG or ERROR check result); the skip message names
every contributing cause per endpoint; otherwise every generated query is
executed and classified OK on zero count, NG on nonzero count, and ERROR
on execution failure. -/
theorem relation_skip_spec (conn : Conn) (aer : String → List LoadError)
    (reports : List TableReport) (rel : RelationDef)
    (hv : relationNamesValid rel)
    (har : rel.from_.columns.length = rel.to_.columns.length) :
    ∃ rs,
      runRelationOne conn aer (fun n => (check_failed_tables reports).contains n) rel = .ok rs
      ∧ rs ≠ []
      ∧ ((∀ r ∈ rs, r.status = .SKIPPED) ↔
          (aer rel.from_.table ≠ [] ∨ aer rel.to_.table ≠ []
            ∨ rel.from_.table ∈ check_failed_tables reports
            ∨ rel.to_.table ∈ check_failed_tables reports))
      ∧ (∀ n, n ∈ check_failed_tables reports ↔
          ∃ rep ∈ reports, rep.table_def.table.name = n
            ∧ ∃ cr ∈ rep.check_results ++ rep.agg_check_results,
                (cr.status = .NG ∨ cr.status = .ERROR))
      ∧ ((aer rel.from_.table ≠ [] ∨ aer rel.to_.table ≠ []
            ∨ rel.from_.table ∈ check_failed_tables reports
            ∨ rel.to_.table ∈ check_failed_tables reports) →
          ∀ r ∈ rs, r.status = .SKIPPED
            ∧ (aer rel.from_.table ≠ [] → pyContains r.message rel.from_.table = true)
            ∧ (aer rel.to_.table ≠ [] → pyContains r.message rel.to_.table = true)
            ∧ (rel.from_.table ∈ check_failed_tables reports →
                pyContains r.message (rel.from_.table ++ " (check failed)") = true)
            ∧ (rel.to_.table ∈ check_failed_tables reports →
                pyContains r.message (rel.to_.table ++ " (check failed)") = true))
      ∧ (¬ (aer rel.from_.table ≠ [] ∨ aer rel.to_.table ≠ []
            ∨ rel.from_.table ∈ check_failed_tables reports
            ∨ rel.to_.table ∈ check_failed_tables reports) →
          ∃ pairs, build_relation_checks rel = .ok pairs
            ∧ rs = pairs.map (execRelationPair conn)
            ∧ ∀ p ∈ pairs,
                (∀ fetched, conn p.2 none = .rows fetched →
                  (execRelationPair conn p).result_count = some (fetched.getD 0)
                  ∧ (fetched.getD 0 = 0 → (execRelationPair conn p).status = .OK)
                  ∧ (fetched.getD 0 ≠ 0 → (execRelationPair conn p).status = .NG))
                ∧ (∀ e, conn p.2 none = .raised e →
                  (execRelationPair conn p).status = .ERROR
                  ∧ (execRelationPair conn p).message = e))
      ∧ (∀ rels L,
          run_relation_checks conn aer (fun n => (check_failed_tables reports).contains n)
            rels = .ok L →
          rel ∈ rels → ∃ pre post, L = pre ++ rs ++ post) := by
  obtain ⟨pairs, hpairs, hpne, hnb⟩ := build_relation_checks_ok rel hv har
  have hg : (!(aer rel.from_.table).isEmpty || !(aer rel.to_.table).isEmpty
      || (check_failed_tables reports).contains rel.from_.table
      || (check_failed_tables reports).contains rel.to_.table) = true
      ↔ (aer rel.from_.table ≠ [] ∨ aer rel.to_.table ≠ []
          ∨ rel.from_.table ∈ check_failed_tables reports
          ∨ rel.to_.table ∈ check_failed_tables reports) := by
    simp [List.isEmpty_eq_false, List.elem_iff]
    tauto
  by_cases hskip : (aer rel.from_.table ≠ [] ∨ aer rel.to_.table ≠ []
      ∨ rel.from_.table ∈ check_failed_tables reports
      ∨ rel.to_.table ∈ check_failed_tables reports)
  · -- skip branch
    have hmap := exMapM_eq_map
      (l := pairs)
      (f := fun pair => make_skipped_result { description := pair.1, query := pair.2 }
        rel.name ("Skipped due to errors in: " ++ pyJoin ", "
          (skippedTables rel (aer rel.from_.table) (aer rel.to_.table)
            ((check_failed_tables reports).contains rel.from_.table)
            ((check_failed_tables reports).contains rel.to_.table))))
      (g := fun p => (⟨p.1, p.2, .SKIPPED, none,
        "Skipped due to errors in: " ++ pyJoin ", "
          (skippedTables rel (aer rel.from_.table) (aer rel.to_.table)
            ((check_failed_tables reports).contains rel.from_.table)
            ((check_failed_tables reports).contains rel.to_.table))⟩ : CheckResult))
      (fun p hp => make_skipped_result_no_brace
        { description := p.1, query := p.2 } (hnb p hp))
    have hok : runRelationOne conn aer
        (fun n => (check_failed_tables reports).contains n) rel
        = .ok (pairs.map (fun p => (⟨p.1, p.2, .SKIPPED, none,
            "Skipped due to errors in: " ++ pyJoin ", "
              (skippedTables rel (aer rel.from_.table) (aer rel.to_.table)
                ((check_failed_tables reports).contains rel.from_.table)
                ((check_failed_tables reports).contains rel.to_.table))⟩ : CheckResult))) := by
      simp only [runRelationOne, hpairs, except_bind_ok]
      rw [if_pos (hg.mpr hskip)]
      exact hmap
    refine ⟨_, hok, ?_, ?_, check_failed_tables_mem reports, ?_, ?_, ?_⟩
    · simp only [ne_eq, List.map_eq_nil_iff]
      exact hpne
    · refine iff_of_true ?_ hskip
      intro r hr
      obtain ⟨p, _, hx⟩ := List.mem_map.mp hr
      rw [← hx]
    · intro _ r hr
      obtain ⟨p, _, hx⟩ := List.mem_map.mp hr
      have hmem := mem_skippedTables rel (aer rel.from_.table) (aer rel.to_.table)
        ((check_failed_tables reports).contains rel.from_.table)
        ((check_failed_tables reports).contains rel.to_.table)
      refine ⟨by rw [← hx], ?_, ?_, ?_, ?_⟩
      · intro hfe
        rw [← hx]
        exact pyContains_append_right _ (pyJoin_contains_of_mem (hmem.1 hfe))
      · intro hte
        rw [← hx]
        exact pyContains_append_right _ (pyJoin_contains_of_mem (hmem.2.1 hte))
      · intro hfc
        rw [← hx]
        exact pyContains_append_right _
          (pyJoin_contains_of_mem (hmem.2.2.1 (List.elem_iff.mpr hfc)))
      · intro htc
        rw [← hx]
        exact pyContains_append_right _
          (pyJoin_contains_of_mem (hmem.2.2.2 (List.elem_iff.mpr htc)))
    · intro hns
      exact absurd hskip hns
    · intro rels L hL hmemrel
      exact run_relation_checks_mem_slice hL hmemrel hok
  · -- execute branch
    have hcond : ¬ ((!(aer rel.from_.table).isEmpty || !(aer rel.to_.table).isEmpty
        || (check_failed_tables reports).contains rel.from_.table
        || (check_failed_tables reports).contains rel.to_.table) = true) :=
      fun h => hskip (hg.mp h)
    have hok : runRelationOne conn aer
        (fun n => (check_failed_tables reports).contains n) rel
        = .ok (pairs.map (execRelationPair conn)) := by
      simp only [runRelationOne, hpairs, except_bind_ok]
      rw [if_neg hcond]
      rfl
    refine ⟨_, hok, ?_, ?_, check_failed_tables_mem reports, ?_, ?_, ?_⟩
    · simp only [ne_eq, List.map_eq_nil_iff]
      exact hpne
    · refine iff_of_false ?_ hskip
      intro hall
      rcases hp0 : pairs with _ | ⟨p0, prest⟩
      · exact hpne hp0
      · have hmem : execRelationPair conn p0 ∈ pairs.map (execRelationPair conn) := by
          rw [hp0]
          exact List.mem_cons_self _ _
        exact execRelationPair_status_ne_skipped conn p0 (hall _ hmem)
    · intro h
      exact absurd h hskip
    · intro _
      refine ⟨pairs, hpairs, rfl, ?_⟩
      intro p _
      have hc := execRelationPair_classification conn p
      refine ⟨?_, ?_⟩
      · intro fetched hf
        obtain ⟨hrc, hz, hnz⟩ := hc.2.2.1 fetched hf
        exact ⟨hrc, fun h0 => (hz h0).1, fun hne0 => (hnz hne0).1⟩
      · intro e he
        exact hc.2.2.2 e he
    · intro rels L hL hmemrel
      exact run_relation_checks_mem_slice hL hmemrel hok

/-- Counterexample to C4 as stated: a relation whose `from` endpoint table
name fails the identifier guard raises from check-pair construction even
though the endpoint has load errors — the claim's SKIPPED results are
never produced. -/
theorem relation_skip_spec_cex :
    ([(⟨"d/u.csv", "UNKNOWN", none, none, "boom"⟩ : LoadError)] ≠ [])
    ∧ run_relation_checks (fun _ _ => .rows (some 0))
        (fun _ => [⟨"d/u.csv", "UNKNOWN", none, none, "boom"⟩]) (fun _ => false)
        [⟨"r1", .n_n, ⟨"bad name", ["id"]⟩, ⟨"users", ["id"]⟩⟩]
      = .error "Invalid identifier: 'bad name'"
    ∧ ¬ ∃ L, run_relation_checks (fun _ _ => .rows (some 0))
        (fun _ => [⟨"d/u.csv", "UNKNOWN", none, none, "boom"⟩]) (fun _ => false)
        [⟨"r1", .n_n, ⟨"bad name", ["id"]⟩, ⟨"users", ["id"]⟩⟩] = .ok L := by
  refine ⟨by decide, rfl, ?_⟩
  intro ⟨L, hL⟩
  have h : run_relation_checks (fun _ _ => .rows (some 0))
      (fun _ => [⟨"d/u.csv", "UNKNOWN", none, none, "boom"⟩]) (fun _ => false)
      [⟨"r1", .n_n, ⟨"bad name", ["id"]⟩, ⟨"users", ["id"]⟩⟩]
      = .error "Invalid identifier: 'bad name'" := rfl
  rw [h] at hL
  exact Except.noConfusion hL

/-- Witness for C4: a 1:N relation whose `from` endpoint (`users`) has a
load error is entirely SKIPPED, with the cause named in the message. -/
theorem relation_skip_spec_witness :
    ∃ rs, runRelationOne (fun _ _ => .rows (some 0))
        (fun n => if n = "users" then [⟨"data/users", "NO_FILES", none, none, "m"⟩] else [])
        (fun n => (check_failed_tables []).contains n)
        ⟨"uo", .one_n, ⟨"users", ["user_id"]⟩, ⟨"orders", ["user_id"]⟩⟩ = .ok rs
      ∧ rs ≠ []
      ∧ ∀ r ∈ rs, r.status = .SKIPPED ∧ pyContains r.message "users" = true := by
  obtain ⟨rs, hok, hne, _, _, hmsg, _, _⟩ := relation_skip_spec
    (fun _ _ => .rows (some 0))
    (fun n => if n = "users" then [⟨"data/users", "NO_FILES", none, none, "m"⟩] else [])
    [] ⟨"uo", .one_n, ⟨"users", ["user_id"]⟩, ⟨"orders", ["user_id"]⟩⟩
    ⟨by decide, by decide, by decide, by decide⟩ (by decide)
  have hskip : (fun n => if n = "users"
      then [(⟨"data/users", "NO_FILES", none, none, "m"⟩ : LoadError)] else []) "users" ≠ [] := by
    decide
  refine ⟨rs, hok, hne, ?_⟩
  intro r hr
  have h := hmsg (Or.inl hskip) r hr
  exact ⟨h.1, h.2.1 hskip⟩

/-! ## C1 and C6: the dependency resolver -/

theorem my_length_filter_lt {α : Type} (p : α → Bool) :
    ∀ (l : List α) (x : α), x ∈ l → p x = false → (l.filter p).length < l.length := by
  intro l
  induction l with
  | nil => intro x hx _; simp at hx
  | cons a rest ih =>
    intro x hx hpx
    rcases List.mem_cons.mp hx with rfl | hx2
    · rw [List.filter_cons, if_neg (by simp [hpx])]
      have := List.length_filter_le p rest
      simp only [List.length_cons]
      omega
    · rw [List.filter_cons]
      by_cases hpa : p a = true
      · rw [if_pos (by simp [hpa])]
        have := ih x hx2 hpx
        simp only [List.length_cons]
        omega
      · rw [if_neg hpa]
        have := ih x hx2 hpx
        simp only [List.length_cons]
        omega

theorem kahnReady_spec {E : String → String → Bool} {rem : List String} {n : String}
    (h : n ∈ kahnReady E rem) : n ∈ rem ∧ ∀ m ∈ rem, E n m = false := by
  unfold kahnReady at h
  obtain ⟨hmem, hq⟩ := List.mem_filter.mp h
  refine ⟨hmem, ?_⟩
  have hany : rem.any (fun m => E n m) = false := by
    simpa using hq
  rw [List.any_eq_false] at hany
  intro m hm
  exact Bool.eq_false_iff.mpr (hany m hm)

theorem kahnReady_mem_iff {E : String → String → Bool} {rem : List String} {x : String}
    (hx : x ∈ rem) :
    decide (x ∈ kahnReady E rem) = !(rem.any (fun m => E x m)) := by
  cases hq : rem.any (fun m => E x m) with
  | false => simp [kahnReady, List.mem_filter, hx, hq]
  | true => simp [kahnReady, List.mem_filter, hq]

theorem kahnFuel_ok {E : String → String → Bool} :
    ∀ (fuel : Nat) (rem out : List String), kahnFuel E fuel rem = .ok out →
      out.Perm rem ∧ out.Pairwise (fun a b => E a b = false)
        ∧ ∀ x ∈ out, E x x = false := by
  intro fuel
  induction fuel with
  | zero =>
    intro rem out h
    unfold kahnFuel at h
    by_cases hre : rem.isEmpty = true
    · rw [if_pos hre] at h
      injection h with h
      subst h
      rw [List.isEmpty_iff.mp hre]
      exact ⟨List.Perm.refl _, List.Pairwise.nil, by simp⟩
    · rw [if_neg hre] at h
      exact absurd h (by simp)
  | succ n ih =>
    intro rem out h
    unfold kahnFuel at h
    by_cases hre : rem.isEmpty = true
    · rw [if_pos hre] at h
      injection h with h
      subst h
      rw [List.isEmpty_iff.mp hre]
      exact ⟨List.Perm.refl _, List.Pairwise.nil, by simp⟩
    · rw [if_neg hre] at h
      by_cases hready : (kahnReady E rem).isEmpty = true
      · rw [if_pos hready] at h
        exact absurd h (by simp)
      · rw [if_neg hready] at h
        cases hk : kahnFuel E n (rem.filter (fun n => !(decide (n ∈ kahnReady E rem)))) with
        | error s => rw [hk] at h; exact absurd h (by simp)
        | ok out2 =>
          rw [hk] at h
          injection h with h
          subst h
          obtain ⟨hperm2, hpw2, hself2⟩ := ih _ _ hk
          have hcong : rem.filter (fun x => !(decide (x ∈ kahnReady E rem)))
              = rem.filter (fun x => !(!(rem.any (fun m => E x m)))) :=
            List.filter_congr (fun x hx => by rw [kahnReady_mem_iff hx])
          have happ : (kahnReady E rem
              ++ rem.filter (fun x => !(decide (x ∈ kahnReady E rem)))).Perm rem := by
            rw [hcong]
            exact List.filter_append_perm _ rem
          have hmem2 : ∀ b ∈ out2, b ∈ rem := by
            intro b hb
            have : b ∈ rem.filter (fun x => !(decide (x ∈ kahnReady E rem))) :=
              hperm2.mem_iff.mp hb
            exact (List.mem_filter.mp this).1
          refine ⟨?_, ?_, ?_⟩
          · exact (hperm2.append_left (kahnReady E rem)).trans happ
          · rw [List.pairwise_append]
            refine ⟨?_, hpw2, ?_⟩
            · apply List.pairwise_of_forall_mem_list
              intro a ha b hb
              exact (kahnReady_spec ha).2 b (kahnReady_spec hb).1
            · intro a ha b hb
              exact (kahnReady_spec ha).2 b (hmem2 b hb)
          · intro x hx
            rcases List.mem_append.mp hx with hx | hx
            · exact (kahnReady_spec hx).2 x (kahnReady_spec hx).1
            · exact hself2 x hx

theorem kahnFuel_error {E : String → String → Bool} :
    ∀ (fuel : Nat) (rem stuck : List String), rem.length ≤ fuel →
      kahnFuel E fuel rem = .error stuck →
      stuck ≠ [] ∧ (∀ x ∈ stuck, x ∈ rem)
        ∧ ∀ x ∈ stuck, ∃ m ∈ stuck, E x m = true := by
  intro fuel
  induction fuel with
  | zero =>
    intro rem stuck hlen h
    have hnil : rem = [] := List.length_eq_zero.mp (Nat.le_zero.mp hlen)
    subst hnil
    unfold kahnFuel at h
    simp at h
  | succ n ih =>
    intro rem stuck hlen h
    unfold kahnFuel at h
    by_cases hre : rem.isEmpty = true
    · rw [if_pos hre] at h
      exact absurd h (by simp)
    · rw [if_neg hre] at h
      by_cases hready : (kahnReady E rem).isEmpty = true
      · rw [if_pos hready] at h
        injection h with h
        subst h
        refine ⟨fun hnil => hre (by rw [hnil]; rfl), fun x hx => hx, ?_⟩
        intro x hx
        have hnil : rem.filter (fun n => !(rem.any (fun m => E n m))) = [] := by
          have := List.isEmpty_iff.mp hready
          rwa [kahnReady] at this
        have hall := List.filter_eq_nil_iff.mp hnil x hx
        have hany : rem.any (fun m => E x m) = true := by
          by_contra hc
          exact hall (by simp [Bool.eq_false_iff.mpr hc])
        obtain ⟨m, hm, hEm⟩ := List.any_eq_true.mp hany
        exact ⟨m, hm, hEm⟩
      · rw [if_neg hready] at h
        cases hk : kahnFuel E n (rem.filter (fun n => !(decide (n ∈ kahnReady E rem)))) with
        | ok out => rw [hk] at h; exact absurd h (by simp)
        | error s =>
          rw [hk] at h
          injection h with h
          subst h
          have hne : kahnReady E rem ≠ [] :=
            fun hh => hready (by rw [hh]; rfl)
          obtain ⟨r, hr⟩ : ∃ r, r ∈ kahnReady E rem := by
            rcases hcr : kahnReady E rem with _ | ⟨y, ys⟩
            · exact absurd hcr hne
            · exact ⟨y, by simp [hcr]⟩
          have hlt : (rem.filter (fun x => !(decide (x ∈ kahnReady E rem)))).length
              < rem.length :=
            my_length_filter_lt _ rem r (kahnReady_spec hr).1 (by simp [hr])
          obtain ⟨h1, h2, h3⟩ := ih _ _ (by omega) hk
          exact ⟨h1, fun x hx => (List.mem_filter.mp (h2 x hx)).1, h3⟩

/-- Successor choice inside a stalled set: pick the first member the node
depends on. -/
def stuckNext (E : String → String → Bool) (S : List String) (n : String) : String :=
  (S.find? (fun m => E n m)).getD n

theorem stuckNext_spec {E : String → String → Bool} {S : List String} {n : String}
    (h : ∃ m ∈ S, E n m = true) :
    stuckNext E S n ∈ S ∧ E n (stuckNext E S n) = true := by
  unfold stuckNext
  have hsome : (S.find? (fun m => E n m)).isSome := by
    rw [List.find?_isSome]
    exact h
  obtain ⟨m0, hm0⟩ := Option.isSome_iff_exists.mp hsome
  rw [hm0]
  exact ⟨List.mem_of_find?_eq_some hm0, List.find?_some hm0⟩

theorem exists_cycle_of_stuck {E : String → String → Bool} {S : List String}
    (hne : S ≠ []) (hsucc : ∀ n ∈ S, ∃ m ∈ S, E n m = true) :
    ∃ x ∈ S, Relation.TransGen (fun a b => E a b = true) x x := by
  obtain ⟨s0, hs0⟩ : ∃ s, s ∈ S := by
    rcases S with _ | ⟨y, ys⟩
    · exact absurd rfl hne
    · exact ⟨y, List.mem_cons_self _ _⟩
  -- the iterated successor chain stays in S and follows edges
  have hmem : ∀ k : Nat, (stuckNext E S)^[k] s0 ∈ S := by
    intro k
    induction k with
    | zero => exact hs0
    | succ k ih =>
      rw [Function.iterate_succ_apply']
      exact (stuckNext_spec (hsucc _ ih)).1
  have hstep : ∀ k : Nat,
      E ((stuckNext E S)^[k] s0) ((stuckNext E S)^[k + 1] s0) = true := by
    intro k
    rw [Function.iterate_succ_apply']
    exact (stuckNext_spec (hsucc _ (hmem k))).2
  have hchain : ∀ i j : Nat, i < j →
      Relation.TransGen (fun a b => E a b = true)
        ((stuckNext E S)^[i] s0) ((stuckNext E S)^[j] s0) := by
    intro i j hij
    induction j with
    | zero => omega
    | succ j ih =>
      rcases Nat.lt_succ_iff_lt_or_eq.mp hij with hij2 | hij2
      · exact (ih hij2).tail (hstep j)
      · subst hij2
        exact Relation.TransGen.single (hstep i)
  -- pigeonhole over S.length + 1 chain elements
  have hcard : S.toFinset.card < (Finset.univ : Finset (Fin (S.length + 1))).card := by
    have h1 : S.toFinset.card ≤ S.length := List.toFinset_card_le S
    have h2 : (Finset.univ : Finset (Fin (S.length + 1))).card = S.length + 1 := by
      simp
    omega
  obtain ⟨i, _, j, _, hij, heq⟩ :=
    Finset.exists_ne_map_eq_of_card_lt_of_maps_to hcard
      (f := fun k : Fin (S.length + 1) => (stuckNext E S)^[k.val] s0)
      (fun k _ => List.mem_toFinset.mpr (hmem k.val))
  rcases Nat.lt_or_ge i.val j.val with hlt | hge
  · refine ⟨(stuckNext E S)^[i.val] s0, hmem i.val, ?_⟩
    have := hchain i.val j.val hlt
    rwa [← heq] at this
  · have hlt : j.val < i.val := by
      rcases Nat.lt_or_ge j.val i.val with h | h
      · exact h
      · exact absurd (Fin.ext (by omega)) hij
    refine ⟨(stuckNext E S)^[j.val] s0, hmem j.val, ?_⟩
    have := hchain j.val i.val hlt
    rwa [heq] at this

theorem pairwise_indexOf_lt {E : String → String → Bool} {ord : List String}
    (hnd : ord.Nodup) (hpw : ord.Pairwise (fun a b => E a b = false))
    {a b : String} (ha : a ∈ ord) (hb : b ∈ ord) (hab : E a b = true)
    (hne : a ≠ b) : ord.indexOf b < ord.indexOf a := by
  have hget := List.pairwise_iff_get.mp hpw
  have hia : ord.indexOf a < ord.length := List.indexOf_lt_length.mpr ha
  have hib : ord.indexOf b < ord.length := List.indexOf_lt_length.mpr hb
  rcases Nat.lt_trichotomy (ord.indexOf a) (ord.indexOf b) with h | h | h
  · have hfalse := hget ⟨ord.indexOf a, hia⟩ ⟨ord.indexOf b, hib⟩ h
    rw [List.indexOf_get hia, List.indexOf_get hib] at hfalse
    rw [hab] at hfalse
    exact absurd hfalse (by simp)
  · have : a = b := by
      have h1 := List.indexOf_get hia
      have h2 := List.indexOf_get hib
      rw [← h1, ← h2]
      congr 1
      exact Fin.ext h
    exact absurd this hne
  · exact h

theorem no_cycle_of_valid_order {E : String → String → Bool} {ord : List String}
    (hnd : ord.Nodup) (hpw : ord.Pairwise (fun a b => E a b = false))
    (hself : ∀ x ∈ ord, E x x = false)
    (hmem : ∀ a b, E a b = true → a ∈ ord ∧ b ∈ ord) :
    ∀ x, ¬ Relation.TransGen (fun a b => E a b = true) x x := by
  have hstep : ∀ a b, E a b = true → ord.indexOf b < ord.indexOf a := by
    intro a b hab
    obtain ⟨ha, hb⟩ := hmem a b hab
    have hne : a ≠ b := by
      intro heq
      subst heq
      rw [hself a ha] at hab
      exact absurd hab (by simp)
    exact pairwise_indexOf_lt hnd hpw ha hb hab hne
  have hdesc : ∀ x y, Relation.TransGen (fun a b => E a b = true) x y →
      ord.indexOf y < ord.indexOf x := by
    intro x y htg
    induction htg with
    | single h => exact hstep _ _ h
    | tail _ h ih => exact Nat.lt_trans (hstep _ _ h) ih
  intro x htg
  exact absurd (hdesc x x htg) (by omega)

theorem fkPairs_source_mem {tds : List TableDef} {a b : String}
    (h : (a, b) ∈ fkPairs tds) : a ∈ tableNames tds := by
  unfold fkPairs at h
  obtain ⟨td, htd, hmem⟩ := List.mem_flatMap.mp h
  obtain ⟨fk, _, hfk⟩ := List.mem_map.mp hmem
  have : a = td.table.name := by
    have := congrArg Prod.fst hfk
    simpa using this.symm
  rw [this]
  exact List.mem_map.mpr ⟨td, htd, rfl⟩

theorem fkEdge_mem {tds : List TableDef} {a b : String}
    (h : FkEdge tds a b = true) : (a, b) ∈ fkPairs tds := by
  unfold FkEdge at h
  exact of_decide_eq_true h

theorem findMissing_none_target_mem {tds : List TableDef}
    (h : findMissing tds = none) {a b : String}
    (hab : (a, b) ∈ fkPairs tds) : b ∈ tableNames tds := by
  unfold findMissing at h
  have := List.find?_eq_none.mp h _ hab
  simpa using this

theorem nameToDef_of_mem {tds : List TableDef} {n : String}
    (h : n ∈ tableNames tds) :
    ∃ td, nameToDef tds n = some td ∧ td.table.name = n ∧ td ∈ tds := by
  unfold nameToDef
  obtain ⟨td0, htd0, hname0⟩ := List.mem_map.mp h
  have hmemf : td0 ∈ tds.filter (fun td => td.table.name == n) :=
    List.mem_filter.mpr ⟨htd0, by simp [hname0]⟩
  have hne : tds.filter (fun td => td.table.name == n) ≠ [] := by
    intro hnil
    rw [hnil] at hmemf
    simp at hmemf
  rcases hfl : tds.filter (fun td => td.table.name == n) with _ | ⟨x, xs⟩
  · exact absurd hfl hne
  · have hlast : ((x :: xs).getLast?) = some ((x :: xs).getLast (by simp)) :=
      List.getLast?_eq_getLast _ _
    rw [hfl, hlast]
    have hlmem2 : (x :: xs).getLast (by simp)
        ∈ tds.filter (fun td => td.table.name == n) := by
      rw [hfl]
      exact List.getLast_mem _
    obtain ⟨hmem, hbeq⟩ := List.mem_filter.mp hlmem2
    exact ⟨_, rfl, by simpa using hbeq, hmem⟩

theorem nameToDef_unique {tds : List TableDef}
    (hnd : (tableNames tds).Nodup) {td : TableDef} (htd : td ∈ tds) :
    nameToDef tds td.table.name = some td := by
  induction tds with
  | nil => simp at htd
  | cons t rest ih =>
    have hnd2 : (tableNames rest).Nodup := by
      unfold tableNames at hnd ⊢
      exact (List.nodup_cons.mp hnd).2
    have hhead : t.table.name ∉ tableNames rest := by
      unfold tableNames at hnd
      exact (List.nodup_cons.mp hnd).1
    rcases List.mem_cons.mp htd with rfl | htd2
    · unfold nameToDef
      rw [List.filter_cons, if_pos (by simp)]
      have hfe : rest.filter (fun u => u.table.name == td.table.name) = [] := by
        rw [List.filter_eq_nil_iff]
        intro u hu
        simp only [beq_iff_eq]
        intro he
        exact hhead (he ▸ List.mem_map.mpr ⟨u, hu, rfl⟩)
      rw [hfe]
      rfl
    · have hne : ¬ (t.table.name == td.table.name) = true := by
        simp only [beq_iff_eq]
        intro he
        exact hhead (he ▸ List.mem_map.mpr ⟨td, htd2, rfl⟩)
      unfold nameToDef
      rw [List.filter_cons, if_neg hne]
      exact ih hnd2 htd2

theorem filterMap_eq_map_of_some {α β : Type} {f : α → Option β} {g : α → β} :
    ∀ {l : List α}, (∀ x ∈ l, f x = some (g x)) → l.filterMap f = l.map g := by
  intro l
  induction l with
  | nil => intro _; rfl
  | cons x xs ih =>
    intro h
    rw [List.filterMap_cons, h x (List.mem_cons_self x xs),
      ih (fun y hy => h y (List.mem_cons_of_mem x hy)), List.map_cons]

/-- **C6.** `build_load_order` fails exactly when some foreign key
references a table absent from the input set — the error carrying both the
dependent table and the missing target of an actual offending foreign
key — or when the foreign-key graph contains a cycle — the error carrying
a node set of which at least one member lies on a cycle; a cyclic graph
never silently succeeds. -/
theorem build_load_order_failure_spec (tds : List TableDef) :
    ((∃ e, build_load_order tds = .error e) ↔ (MissingFkTarget tds ∨ HasFkCycle tds))
    ∧ (∀ d t, build_load_order tds = .error (.missingRef d t) →
        (d, t) ∈ fkPairs tds ∧ t ∉ tableNames tds)
    ∧ (∀ ns, build_load_order tds = .error (.cycleDetected ns) →
        ∃ x ∈ ns, Relation.TransGen (fun a b => FkEdge tds a b = true) x x) := by
  have hstuck_cycle : ∀ ns, kahn (FkEdge tds) (graphNodes tds) = .error ns →
      ∃ x ∈ ns, Relation.TransGen (fun a b => FkEdge tds a b = true) x x := by
    intro ns hk
    unfold kahn at hk
    obtain ⟨hne2, _, hdep⟩ := kahnFuel_error _ _ _ (Nat.le_refl _) hk
    exact exists_cycle_of_stuck hne2 hdep
  have hok_no_cycle : ∀ order, findMissing tds = none →
      kahn (FkEdge tds) (graphNodes tds) = .ok order → ¬ HasFkCycle tds := by
    intro order hnm hk hcyc
    unfold kahn at hk
    obtain ⟨hperm, hpw, hself⟩ := kahnFuel_ok _ _ _ hk
    have hndord : order.Nodup := hperm.nodup_iff.mpr (List.nodup_dedup _)
    have hmem : ∀ a b, FkEdge tds a b = true → a ∈ order ∧ b ∈ order := by
      intro a b hab
      have hpair := fkEdge_mem hab
      have ha : a ∈ tableNames tds := fkPairs_source_mem hpair
      have hb : b ∈ tableNames tds := findMissing_none_target_mem hnm hpair
      exact ⟨hperm.mem_iff.mpr (List.mem_dedup.mpr ha),
        hperm.mem_iff.mpr (List.mem_dedup.mpr hb)⟩
    obtain ⟨x, hx⟩ := hcyc
    exact no_cycle_of_valid_order hndord hpw hself hmem x hx
  refine ⟨⟨?_, ?_⟩, ?_, ?_⟩
  · intro ⟨e, he⟩
    unfold build_load_order at he
    cases hm : findMissing tds with
    | some p =>
      left
      unfold findMissing at hm
      refine ⟨p, List.mem_of_find?_eq_some hm, ?_⟩
      have := List.find?_some hm
      simpa using this
    | none =>
      rw [hm] at he
      cases hk : kahn (FkEdge tds) (graphNodes tds) with
      | ok order => rw [hk] at he; exact absurd he (by simp)
      | error ns =>
        right
        obtain ⟨x, _, hx⟩ := hstuck_cycle ns hk
        exact ⟨x, hx⟩
  · intro hcase
    rcases hcase with hmiss | hcyc
    · obtain ⟨p, hp, hnot⟩ := hmiss
      have hsome : (findMissing tds).isSome := by
        unfold findMissing
        rw [List.find?_isSome]
        exact ⟨p, hp, by simpa using hnot⟩
      obtain ⟨q, hq⟩ := Option.isSome_iff_exists.mp hsome
      exact ⟨.missingRef q.1 q.2, by unfold build_load_order; rw [hq]⟩
    · by_cases hm : (findMissing tds).isSome
      · obtain ⟨q, hq⟩ := Option.isSome_iff_exists.mp hm
        exact ⟨.missingRef q.1 q.2, by unfold build_load_order; rw [hq]⟩
      · have hnone : findMissing tds = none := Option.not_isSome_iff_eq_none.mp hm
        cases hk : kahn (FkEdge tds) (graphNodes tds) with
        | error ns =>
          exact ⟨.cycleDetected ns, by unfold build_load_order; rw [hnone, hk]⟩
        | ok order =>
          exact absurd hcyc (hok_no_cycle order hnone hk)
  · intro d t h
    unfold build_load_order at h
    cases hm : findMissing tds with
    | some p =>
      rw [hm] at h
      injection h with h2
      injection h2 with hd ht
      subst hd
      subst ht
      unfold findMissing at hm
      exact ⟨List.mem_of_find?_eq_some hm, by simpa using List.find?_some hm⟩
    | none =>
      rw [hm] at h
      cases hk : kahn (FkEdge tds) (graphNodes tds) with
      | ok order => rw [hk] at h; exact absurd h (by simp)
      | error ns2 =>
        rw [hk] at h
        injection h with h2
        exact absurd h2 (by simp)
  · intro ns h
    unfold build_load_order at h
    cases hm : findMissing tds with
    | some p =>
      rw [hm] at h
      injection h with h2
      exact absurd h2 (by simp)
    | none =>
      rw [hm] at h
      cases hk : kahn (FkEdge tds) (graphNodes tds) with
      | ok order => rw [hk] at h; exact absurd h (by simp)
      | error ns2 =>
        rw [hk] at h
        injection h with h2
        injection h2 with h3
        subst h3
        exact hstuck_cycle _ hk

instance : Inhabited TableDef :=
  ⟨⟨⟨"", "", ""⟩, [], ⟨[], [], [], [], [], []⟩, {}⟩⟩

/-- **C1 (amended).** For every list of table definitions with pairwise
distinct table names, whose foreign-key graph is acyclic and whose
foreign-key targets are all defined, `build_load_order` returns a
permutation of the input list in which, for every foreign key of table A
referencing table B, B appears strictly before A. -/
theorem build_load_order_topological (tds : List TableDef)
    (hnd : (tableNames tds).Nodup)
    (hdef : ∀ p ∈ fkPairs tds, p.2 ∈ tableNames tds)
    (hac : ¬ HasFkCycle tds) :
    ∃ out, build_load_order tds = .ok out ∧ out.Perm tds
      ∧ ∀ td ∈ tds, ∀ fk ∈ td.table_constraints.foreign_keys,
          (out.map (fun t => t.table.name)).indexOf fk.references.table
            < (out.map (fun t => t.table.name)).indexOf td.table.name := by
  have hnm : findMissing tds = none := by
    unfold findMissing
    rw [List.find?_eq_none]
    intro p hp
    simp [hdef p hp]
  cases hk : kahn (FkEdge tds) (graphNodes tds) with
  | error ns =>
    exfalso
    unfold kahn at hk
    obtain ⟨hne2, _, hdep⟩ := kahnFuel_error _ _ _ (Nat.le_refl _) hk
    obtain ⟨x, _, hx⟩ := exists_cycle_of_stuck hne2 hdep
    exact hac ⟨x, hx⟩
  | ok order =>
    have hfacts : order.Perm (graphNodes tds)
        ∧ order.Pairwise (fun a b => FkEdge tds a b = false)
        ∧ ∀ x ∈ order, FkEdge tds x x = false := by
      unfold kahn at hk
      exact kahnFuel_ok _ _ _ hk
    obtain ⟨hperm0, hpw, hself⟩ := hfacts
    have hnodes : graphNodes tds = tableNames tds := by
      unfold graphNodes
      exact List.Nodup.dedup hnd
    have hperm : order.Perm (tableNames tds) := hnodes ▸ hperm0
    have hordermem : ∀ n ∈ order, n ∈ tableNames tds := fun n hn => hperm.mem_iff.mp hn
    have hndord : order.Nodup := hperm.nodup_iff.mpr hnd
    have hsome : ∀ n ∈ order,
        nameToDef tds n = some ((nameToDef tds n).getD default) := by
      intro n hn
      obtain ⟨td, htd, _, _⟩ := nameToDef_of_mem (hordermem n hn)
      rw [htd]
      rfl
    have hout_eq : order.filterMap (nameToDef tds)
        = order.map (fun n => (nameToDef tds n).getD default) :=
      filterMap_eq_map_of_some hsome
    have hmapname2 : (order.filterMap (nameToDef tds)).map (fun t => t.table.name)
        = order := by
      rw [hout_eq, List.map_map]
      have hcg : ∀ n ∈ order,
          ((fun t => t.table.name) ∘ fun n => (nameToDef tds n).getD default) n
            = id n := by
        intro n hn
        obtain ⟨td, htd, hname, _⟩ := nameToDef_of_mem (hordermem n hn)
        simp only [Function.comp, id]
        rw [htd]
        exact hname
      rw [List.map_eq_map_iff.mpr hcg, List.map_id]
    refine ⟨order.filterMap (nameToDef tds), ?_, ?_, ?_⟩
    · unfold build_load_order
      rw [hnm, hk]
    · rw [hout_eq]
      have hmapname : (tableNames tds).map (fun n => (nameToDef tds n).getD default)
          = tds := by
        unfold tableNames
        rw [List.map_map]
        have hcg : ∀ td ∈ tds,
            ((fun n => (nameToDef tds n).getD default) ∘ fun t => t.table.name) td
              = id td := by
          intro td htd
          simp only [Function.comp, id]
          rw [nameToDef_unique hnd htd]
          rfl
        rw [List.map_eq_map_iff.mpr hcg, List.map_id]
      have := hperm.map (fun n => (nameToDef tds n).getD default)
      rwa [hmapname] at this
    · intro td htd fk hfk
      rw [hmapname2]
      have hpairmem : (td.table.name, fk.references.table) ∈ fkPairs tds := by
        unfold fkPairs
        exact List.mem_flatMap.mpr ⟨td, htd, List.mem_map.mpr ⟨fk, hfk, rfl⟩⟩
      have hedge : FkEdge tds td.table.name fk.references.table = true := by
        unfold FkEdge
        exact decide_eq_true hpairmem
      have ha : td.table.name ∈ order :=
        hperm.mem_iff.mpr (List.mem_map.mpr ⟨td, htd, rfl⟩)
      have hb : fk.references.table ∈ order := hperm.mem_iff.mpr (hdef _ hpairmem)
      have hne : td.table.name ≠ fk.references.table := by
        intro heq
        have hff := hself td.table.name ha
        rw [← heq] at hedge
        rw [hedge] at hff
        exact absurd hff (by simp)
      exact pairwise_indexOf_lt hndord hpw ha hb hedge hne

/-- Two distinct table definitions sharing the name `t` (the parser never
checks table-name uniqueness across schema files). -/
def dupTableA : TableDef :=
  ⟨⟨"t", "first", "d"⟩, [⟨"id", "ID", "INTEGER", true, "", [], none, none, none⟩],
   ⟨[], [], [], [], [], []⟩, {}⟩

/-- The second definition named `t`. -/
def dupTableB : TableDef :=
  ⟨⟨"t", "second", "d"⟩, [⟨"id", "ID", "INTEGER", true, "", [], none, none, none⟩],
   ⟨[], [], [], [], [], []⟩, {}⟩

/-- Counterexample to C1 as stated: with two definitions sharing a table
name — an acyclic FK graph with every target defined — the resolver
collapses them in its name dictionary and returns a single-element list,
which is not a permutation of the two-element input. -/
theorem build_load_order_topological_cex :
    (∀ p ∈ fkPairs [dupTableA, dupTableB], p.2 ∈ tableNames [dupTableA, dupTableB])
    ∧ ¬ HasFkCycle [dupTableA, dupTableB]
    ∧ build_load_order [dupTableA, dupTableB] = .ok [dupTableB]
    ∧ ¬ ([dupTableB].Perm [dupTableA, dupTableB]) := by
  have hnoedge : ∀ a b, FkEdge [dupTableA, dupTableB] a b = false := fun a b => rfl
  refine ⟨?_, ?_, rfl, ?_⟩
  · intro p hp
    simp [fkPairs, dupTableA, dupTableB] at hp
  · intro ⟨x, hx⟩
    cases hx with
    | single h => rw [hnoedge] at h; exact absurd h (by simp)
    | tail _ h => rw [hnoedge] at h; exact absurd h (by simp)
  · intro h
    have := h.length_eq
    simp at this

/-- `users` (no foreign keys). -/
def tdUsers : TableDef :=
  ⟨⟨"users", "", "d"⟩, [⟨"user_id", "UID", "INTEGER", true, "", [], none, none, none⟩],
   ⟨[], [], [], [], [], []⟩, {}⟩

/-- `orders` with a foreign key referencing `users`. -/
def tdOrders : TableDef :=
  ⟨⟨"orders", "", "d"⟩,
   [⟨"order_id", "OID", "INTEGER", true, "", [], none, none, none⟩,
    ⟨"user_id", "UID", "INTEGER", true, "", [], none, none, none⟩],
   ⟨[], [⟨["user_id"], ⟨"users", ["user_id"]⟩⟩], [], [], [], []⟩, {}⟩

/-- Witness for C1: `orders` before `users` in the input is reordered so
that `users` precedes `orders` in the output, a permutation of the
input. -/
theorem build_load_order_topological_witness :
    ∃ out, build_load_order [tdOrders, tdUsers] = .ok out
      ∧ out.Perm [tdOrders, tdUsers]
      ∧ (out.map (fun t => t.table.name)).indexOf "users"
        < (out.map (fun t => t.table.name)).indexOf "orders" := by
  have hpairs : fkPairs [tdOrders, tdUsers] = [("orders", "users")] := rfl
  have hac : ¬ HasFkCycle [tdOrders, tdUsers] := by
    have htarget : ∀ a b,
        Relation.TransGen (fun u v => FkEdge [tdOrders, tdUsers] u v = true) a b →
          b = "users" := by
      intro a b h
      induction h with
      | single h =>
        have hm := of_decide_eq_true h
        rw [hpairs] at hm
        have := List.mem_singleton.mp hm
        exact (Prod.mk.injEq _ _ _ _ ▸ this).2
      | tail _ h _ =>
        have hm := of_decide_eq_true h
        rw [hpairs] at hm
        have := List.mem_singleton.mp hm
        exact (Prod.mk.injEq _ _ _ _ ▸ this).2
    have hsource : ∀ a b,
        Relation.TransGen (fun u v => FkEdge [tdOrders, tdUsers] u v = true) a b →
          a = "orders" := by
      intro a b h
      induction h with
      | single h =>
        have hm := of_decide_eq_true h
        rw [hpairs] at hm
        have := List.mem_singleton.mp hm
        exact (Prod.mk.injEq _ _ _ _ ▸ this).1
      | tail _ _ ih => exact ih
    intro ⟨x, hx⟩
    have h1 := htarget x x hx
    have h2 := hsource x x hx
    rw [h1] at h2
    exact absurd h2 (by decide)
  obtain ⟨out, h1, h2, h3⟩ :=
    build_load_order_topological [tdOrders, tdUsers] (by decide) (by decide) hac
  refine ⟨out, h1, h2, ?_⟩
  exact h3 tdOrders (List.mem_cons_self _ _)
    ⟨["user_id"], ⟨"users", ["user_id"]⟩⟩ (List.mem_singleton.mpr rfl)

/-- A table whose foreign key references the undefined table `zz`. -/
def tdMissOrders : TableDef :=
  ⟨⟨"orders", "", "d"⟩,
   [⟨"zz_id", "ZID", "INTEGER", true, "", [], none, none, none⟩],
   ⟨[], [⟨["zz_id"], ⟨"zz", ["id"]⟩⟩], [], [], [], []⟩, {}⟩

/-- Tables `a` and `b` referencing each other: a two-node FK cycle. -/
def tdCycA : TableDef :=
  ⟨⟨"a", "", "d"⟩, [⟨"id", "ID", "INTEGER", true, "", [], none, none, none⟩],
   ⟨[], [⟨["id"], ⟨"b", ["id"]⟩⟩], [], [], [], []⟩, {}⟩

/-- The `b` half of the cycle. -/
def tdCycB : TableDef :=
  ⟨⟨"b", "", "d"⟩, [⟨"id", "ID", "INTEGER", true, "", [], none, none, none⟩],
   ⟨[], [⟨["id"], ⟨"a", ["id"]⟩⟩], [], [], [], []⟩, {}⟩

/-- Witness for C6: a concrete missing-reference failure names the actual
offending pair, and a concrete two-table cycle fails with a node set
containing a table that really lies on an FK cycle. -/
theorem build_load_order_failure_spec_witness :
    (("orders", "zz") ∈ fkPairs [tdMissOrders] ∧ "zz" ∉ tableNames [tdMissOrders])
    ∧ (∃ x ∈ ["a", "b"],
        Relation.TransGen (fun u v => FkEdge [tdCycA, tdCycB] u v = true) x x) := by
  constructor
  · exact (build_load_order_failure_spec [tdMissOrders]).2.1 "orders" "zz" rfl
  · exact (build_load_order_failure_spec [tdCycA, tdCycB]).2.2 ["a", "b"] rfl
